import Mathlib

/-!
Verification development for the mqttalrm repository.

The daemons are shallowly embedded: C doubles are modelled as rationals,
C strings as Lean strings (no embedded NUL characters), the mosquitto
client and syslog as traces, and the global linked lists / sorted arrays
as Lean lists with unique keys.  The C library conversions sprintf and
strtod applied to cached payload strings are threaded as explicit function
parameters where their numeric behaviour is irrelevant to the property at
hand, and modelled concretely (decimal forms) where it is relevant.
-/

namespace Mqttalrm

/-- syslog informational priority, the level used by mylog(LOG_INFO, ...).
mylog exits only for priorities at or below LOG_ERR, so an informational
message never aborts. -/
def LOG_INFO : Nat := 6

/-- Truncation of a rational toward zero: the effect of the C cast (int)x
applied to a double whose value is in range (overflow is undefined in C and
not modelled). -/
def ctrunc (q : ℚ) : Int := if 0 ≤ q then ⌊q⌋ else ⌈q⌉

/-- C bitwise complement on int: ~x is -(x+1) in two's complement. -/
def cnot (x : Int) : Int := -(x + 1)

/-- pow(a, b) of the C library, modelled exactly for integer exponents and
as 0 otherwise; non-integer exponents never occur in the verified claims. -/
def cpow (a b : ℚ) : ℚ := if b.den = 1 then a ^ b.num else 0

/-! ## rpnlogic.c: the stack operators

The evaluation stack (struct stack) is a list of rationals with the top of
the stack (v[n-1]) at the head.  Each rpn_do_ function returns the C return
value together with the new stack; -1 is the stack-underflow error. -/

/-- rpn_do_plus: v[n-2] = v[n-2] + v[n-1]. -/
def rpn_do_plus : List ℚ → Int × List ℚ
  | b :: a :: st => (0, (a + b) :: st)
  | st => (-1, st)

/-- rpn_do_minus: v[n-2] = v[n-2] - v[n-1]. -/
def rpn_do_minus : List ℚ → Int × List ℚ
  | b :: a :: st => (0, (a - b) :: st)
  | st => (-1, st)

/-- rpn_do_mul. -/
def rpn_do_mul : List ℚ → Int × List ℚ
  | b :: a :: st => (0, (a * b) :: st)
  | st => (-1, st)

/-- rpn_do_div; rational division yields 0 at a zero divisor where IEEE
arithmetic produces an infinity, a case no verified claim exercises. -/
def rpn_do_div : List ℚ → Int × List ℚ
  | b :: a :: st => (0, (a / b) :: st)
  | st => (-1, st)

/-- rpn_do_pow: pow(v[n-2], v[n-1]). -/
def rpn_do_pow : List ℚ → Int × List ℚ
  | b :: a :: st => (0, cpow a b :: st)
  | st => (-1, st)

/-- rpn_do_bitand: (int)a & (int)b. -/
def rpn_do_bitand : List ℚ → Int × List ℚ
  | b :: a :: st => (0, ((Int.land (ctrunc a) (ctrunc b) : Int) : ℚ) :: st)
  | st => (-1, st)

/-- rpn_do_bitor: (int)a | (int)b. -/
def rpn_do_bitor : List ℚ → Int × List ℚ
  | b :: a :: st => (0, ((Int.lor (ctrunc a) (ctrunc b) : Int) : ℚ) :: st)
  | st => (-1, st)

/-- rpn_do_bitxor: (int)a ^ (int)b. -/
def rpn_do_bitxor : List ℚ → Int × List ℚ
  | b :: a :: st => (0, ((Int.xor (ctrunc a) (ctrunc b) : Int) : ℚ) :: st)
  | st => (-1, st)

/-- rpn_do_bitinv: ~(int)a, arity 1. -/
def rpn_do_bitinv : List ℚ → Int × List ℚ
  | a :: st => (0, ((cnot (ctrunc a) : Int) : ℚ) :: st)
  | st => (-1, st)

/-- rpn_do_booland: (int)a && (int)b, C boolean result 0 or 1. -/
def rpn_do_booland : List ℚ → Int × List ℚ
  | b :: a :: st => (0, (if ctrunc a ≠ 0 ∧ ctrunc b ≠ 0 then (1 : ℚ) else 0) :: st)
  | st => (-1, st)

/-- rpn_do_boolor: (int)a || (int)b. -/
def rpn_do_boolor : List ℚ → Int × List ℚ
  | b :: a :: st => (0, (if ctrunc a ≠ 0 ∨ ctrunc b ≠ 0 then (1 : ℚ) else 0) :: st)
  | st => (-1, st)

/-- rpn_do_boolnot: !(int)a, arity 1. -/
def rpn_do_boolnot : List ℚ → Int × List ℚ
  | a :: st => (0, (if ctrunc a = 0 then (1 : ℚ) else 0) :: st)
  | st => (-1, st)

/-- rpn_do_lt: v[n-2] = v[n-2] < (int)v[n-1].  The C source casts the top
operand to int before the comparison; the second-from-top operand is
compared untruncated. -/
def rpn_do_lt : List ℚ → Int × List ℚ
  | b :: a :: st => (0, (if a < ((ctrunc b : Int) : ℚ) then (1 : ℚ) else 0) :: st)
  | st => (-1, st)

/-- rpn_do_gt: v[n-2] = v[n-2] > (int)v[n-1]. -/
def rpn_do_gt : List ℚ → Int × List ℚ
  | b :: a :: st => (0, (if a > ((ctrunc b : Int) : ℚ) then (1 : ℚ) else 0) :: st)
  | st => (-1, st)

/-- rpn_do_dup: push a copy of the top of the stack. -/
def rpn_do_dup : List ℚ → Int × List ℚ
  | a :: st => (0, a :: a :: st)
  | st => (-1, st)

/-- rpn_do_swap: exchange the two top stack slots. -/
def rpn_do_swap : List ℚ → Int × List ℚ
  | b :: a :: st => (0, a :: b :: st)
  | st => (-1, st)

/-- The operator half of the parser lookup table in rpnlogic.c. -/
inductive RpnOp
  | plus | minus | mul | div | pow
  | bitand | bitor | bitxor | bitinv
  | booland | boolor | boolnot
  | lt | gt
  | dup | swap
deriving DecidableEq

/-- One compiled node (struct rpn): a pushed constant, an environment
(topic) reference, or an operator.  rpn_parse never fills in rpn->options
(so it is none for every parsed node); the field exists because
rpn_lookup_env in mqttlogic.c reads it. -/
inductive RpnNode
  | const (value : ℚ)
  | env (topic : String) (options : Option String)
  | op (o : RpnOp)
deriving DecidableEq

/-- The number of operands each operator pops before checking, i.e. the k
of the st->n < k underflow test of its rpn_do_ function. -/
def arity : RpnOp → Nat
  | .bitinv => 1
  | .boolnot => 1
  | .dup => 1
  | _ => 2

/-- Dispatch an operator token to its rpn_do_ function (the run pointer). -/
def run_op : RpnOp → List ℚ → Int × List ℚ
  | .plus => rpn_do_plus
  | .minus => rpn_do_minus
  | .mul => rpn_do_mul
  | .div => rpn_do_div
  | .pow => rpn_do_pow
  | .bitand => rpn_do_bitand
  | .bitor => rpn_do_bitor
  | .bitxor => rpn_do_bitxor
  | .bitinv => rpn_do_bitinv
  | .booland => rpn_do_booland
  | .boolor => rpn_do_boolor
  | .boolnot => rpn_do_boolnot
  | .lt => rpn_do_lt
  | .gt => rpn_do_gt
  | .dup => rpn_do_dup
  | .swap => rpn_do_swap

/-! ## mqttlogic.c: the topic value cache -/

/-- struct topic of mqttlogic.c.  value is none until the first data
message stores a payload (a NULL char pointer in C). -/
structure Topic where
  topic : String
  value : Option String
  ref : Int
  changed : Bool
deriving DecidableEq

/-- get_topic(name, 0): lookup without creation.  The C bsearch over the
qsorted array is modelled as first-match search; keys are unique because an
entry is only ever created when no entry with its name exists. -/
def get_topic0 (tps : List Topic) (name : String) : Option Topic :=
  tps.find? (fun t => decide (t.topic = name))

/-- rpn_lookup_env of mqttlogic.c.  Returns the value used by the engine
together with the syslog priorities emitted: an unknown topic logs at
LOG_INFO and yields 0.  strtod models the C library conversion of the
cached payload string.  The options gate reads rpn->options (always none
for nodes produced by rpn_parse).  The cached value is only ever read after
a data message stored it, so the getD default never reaches strtod in a
reachable state. -/
def rpn_lookup_env (tps : List Topic) (strtod : String → ℚ) (name : String)
    (options : Option String) : ℚ × List Nat :=
  match get_topic0 tps name with
  | none => (0, [LOG_INFO])
  | some t =>
    if (options.getD ("")).data.contains '1' && !t.changed then (0, [])
    else (strtod (t.value.getD ("")), [])

/-- The run dispatch of rpn_run: rpn_do_const pushes me->value, rpn_do_env
pushes the rpn_lookup_env result (never an error), operators run their
rpn_do_ function. -/
def run_node (tps : List Topic) (strtod : String → ℚ) :
    RpnNode → List ℚ → Int × List ℚ
  | .const v, st => (0, v :: st)
  | .env name opts, st => (0, (rpn_lookup_env tps strtod name opts).1 :: st)
  | .op o, st => run_op o st

/-- rpn_run: execute the node chain left to right; a negative return from a
node aborts the run immediately with that return value and the stack as the
failing node left it. -/
def rpn_run (tps : List Topic) (strtod : String → ℚ) :
    List ℚ → List RpnNode → Int × List ℚ
  | st, [] => (0, st)
  | st, n :: rest =>
    match run_node tps strtod n st with
    | (ret, st2) => if ret < 0 then (ret, st2) else rpn_run tps strtod st2 rest

/-! ## rpnlogic.c: the parser -/

/-- The worker of the strtok model: acc holds the characters of the token
being scanned, in reverse. -/
def tokenize_go : List Char → List Char → List String
  | acc, [] => if acc = [] then [] else [String.mk acc.reverse]
  | acc, c :: rest =>
    if c = ' ' ∨ c = '\t' then
      if acc = [] then tokenize_go [] rest
      else String.mk acc.reverse :: tokenize_go [] rest
    else tokenize_go (c :: acc) rest

/-- The strtok(str, " \t") token stream: maximal runs of non-delimiter
characters, empty tokens never produced. -/
def tokenize (s : String) : List String := tokenize_go [] s.data

/-- The operator lookup table (do_lookup over lookups[]). -/
def do_lookup : String → Option RpnOp
  | "+" => some .plus
  | "-" => some .minus
  | "*" => some .mul
  | "/" => some .div
  | "**" => some .pow
  | "&" => some .bitand
  | "|" => some .bitor
  | "^" => some .bitxor
  | "~" => some .bitinv
  | "&&" => some .booland
  | "||" => some .boolor
  | "!" => some .boolnot
  | "<" => some .lt
  | ">" => some .gt
  | "dup" => some .dup
  | "swap" => some .swap
  | _ => none

/-- One iteration of the rpn_parse token loop: a numeric constant (leading
digit, or a sign immediately followed by a digit), then a topic reference
of the exact shape dollar-brace-name-brace, then an operator; anything else
is an unknown token. -/
def classify_tok (strtod : String → ℚ) (tok : String) : Option RpnNode :=
  match tok.data with
  | [] => none
  | c :: rest =>
    if c.isDigit || (rest ≠ [] && (c == '+' || c == '-') && (rest.headD ' ').isDigit) then
      some (.const (strtod tok))
    else if c == '$' && rest.headD ' ' == '\x7b' && tok.data.getLastD ' ' == '\x7d' then
      some (.env (String.mk ((rest.drop 1).dropLast)) none)
    else
      match do_lookup tok with
      | some o => some (.op o)
      | none => none

/-- The token loop of rpn_parse: on the first unknown token the chain built
so far is freed and NULL is returned. -/
def rpn_parse_go (strtod : String → ℚ) : List String → Option (List RpnNode)
  | [] => some []
  | t :: ts =>
    match classify_tok strtod t with
    | none => none
    | some n => (rpn_parse_go strtod ts).map (n :: ·)

/-- rpn_parse; the NULL chain (parse failure or no tokens) is the empty
list. -/
def rpn_parse (strtod : String → ℚ) (s : String) : List RpnNode :=
  (rpn_parse_go strtod (tokenize s)).getD []

/-! ## mqttlogic.c: items and the message handler -/

/-- struct item of mqttlogic.c. -/
structure LItem where
  topic : String
  writetopic : Option String
  lastvalue : Option String
  logic : List RpnNode
  fmt : Option String
deriving DecidableEq

/-- The whole-process state of mqttlogic: the item list (head is the most
recently created item, as items are inserted at the list head) and the
topic cache. -/
structure LogicState where
  items : List LItem
  topics : List Topic
deriving DecidableEq

/-- The configuration of one mqttlogic process: the spec suffix (default
"/logic") and the optional write suffix. -/
structure LogicCfg where
  suffix : String
  write_suffix : Option String

/-- The topic of a node when it is a reference (rpn->topic non NULL). -/
def topicOf : RpnNode → Option String
  | .env t _ => some t
  | _ => none

/-- rpn_has_ref: does any node in the chain reference the topic. -/
def rpn_has_ref (nodes : List RpnNode) (topic : String) : Bool :=
  nodes.any (fun n => decide (topicOf n = some topic))

/-- The number of nodes of a chain referencing a topic; rpn_add_ref bumps
a cached topic once per such node. -/
def countRefs (nodes : List RpnNode) (topic : String) : Nat :=
  nodes.countP (fun n => decide (topicOf n = some topic))

/-- In-place mutation of the cache entry named name through the pointer
get_topic returned: every other entry is untouched. -/
def upd_topic (tps : List Topic) (name : String) (f : Topic → Topic) : List Topic :=
  tps.map (fun t => if t.topic = name then f t else t)

/-- topic->ref += add on the entry named name, a no-op when no entry
exists (the get_topic(name, 0) inside rpn_add_ref). -/
def bump_ref (tps : List Topic) (name : String) (d : Int) : List Topic :=
  upd_topic tps name (fun t => { t with ref := t.ref + d })

/-- rpn_add_ref: walk the chain and bump every cached topic a node
references; topics absent from the cache are skipped. -/
def rpn_add_ref (tps : List Topic) (nodes : List RpnNode) (d : Int) : List Topic :=
  nodes.foldl
    (fun acc n =>
      match topicOf n with
      | none => acc
      | some name =>
        match get_topic0 acc name with
        | none => acc
        | some _ => bump_ref acc name d)
    tps

/-- get_topic(name, create) for create ≠ 0: on a miss a fresh entry is
appended whose reference count is preset by scanning all items for
expressions already referencing the name (the backfill loop of get_topic),
counting one per item. -/
def get_topic_create (tps : List Topic) (its : List LItem) (name : String) : List Topic :=
  match get_topic0 tps name with
  | some _ => tps
  | none =>
    tps ++ [{ topic := name, value := none,
              ref := (its.countP (fun it => rpn_has_ref it.logic name) : Int),
              changed := false }]

/-- free(topic->value); topic->value = strndup(payload). -/
def set_value (tps : List Topic) (name : String) (v : String) : List Topic :=
  upd_topic tps name (fun t => { t with value := some v })

/-- topic->changed = b on the named entry. -/
def set_changed (tps : List Topic) (name : String) (b : Bool) : List Topic :=
  upd_topic tps name (fun t => { t with changed := b })

/-- The match test of get_item in mqttlogic.c:
!strncmp(it->topic, topic, matchlen) && !it->topic[matchlen].
For NUL-free strings, strncmp equality is equality of the length-n front
parts of both strings, and indexing the key C string at matchlen reads NUL
exactly when the key has no more than matchlen characters (reading past the
terminator never happens because the strncmp test fails first). -/
def logic_key_match (key inc : String) (matchlen : Nat) : Bool :=
  decide (key.data.take matchlen = inc.data.take matchlen) &&
  decide (key.data.length ≤ matchlen)

/-- get_item of mqttlogic.c as an index into the item list. -/
def get_item_idx (its : List LItem) (inc : String) (matchlen : Nat) : Option Nat :=
  its.findIdx? (fun it => logic_key_match it.topic inc matchlen)

/-- The freshly created item of get_item: the incoming topic truncated at
matchlen becomes the key, and the write topic is key plus the write suffix
when one is configured. -/
def new_litem (cfg : LogicCfg) (inc : String) (matchlen : Nat) : LItem :=
  { topic := String.mk (inc.data.take matchlen)
    writetopic := cfg.write_suffix.map (fun w => String.mk (inc.data.take matchlen) ++ w)
    lastvalue := none
    logic := []
    fmt := none }

/-- do_item of mqttlogic.c.  fmtfn models sprintf applied to one double
with the format it->fmt ?: the default float format.  A failed run (negative
return) or an empty final stack publishes nothing and leaves the item
unchanged; otherwise the rendered top of stack is compared against the last
published value (NULL compares as the empty string) and published only on a
difference, updating the cache.  Returns the updated item and the publishes
(topic, payload) issued; qos and the retain flag are not modelled. -/
def do_item (fmtfn : String → ℚ → String) (strtod : String → ℚ)
    (tps : List Topic) (it : LItem) : LItem × List (String × String) :=
  match rpn_run tps strtod [] it.logic with
  | (ret, st) =>
    if ret < 0 then (it, [])
    else
      match st with
      | [] => (it, [])
      | top :: _ =>
        let buf := fmtfn (it.fmt.getD ("%f")) top
        if it.lastvalue.getD ("") = buf then (it, [])
        else ({ it with lastvalue := some buf }, [(it.writetopic.getD it.topic, buf)])

/-- The last index holding a space, mirroring strrchr(payload, ' '). -/
def last_space_idx (cs : List Char) : Option Nat :=
  ((cs.enum.filter (fun p => p.snd == ' ')).map (fun p => p.fst)).getLast?

/-- The strrchr split of a spec payload: when the character after the last
space is a percent sign, the payload is cut there and the tail becomes the
format string. -/
def split_fmt (payload : String) : String × Option String :=
  match last_space_idx payload.data with
  | none => (payload, none)
  | some i =>
    if payload.data.getD (i + 1) ' ' = '%' then
      (String.mk (payload.data.take i), some (String.mk (payload.data.drop (i + 1))))
    else (payload, none)

/-- The reconfiguration body of the logic spec branch: unreference and drop
the old expression, split off a trailing format, parse and reference the
new expression, then run do_item once ("ready, first run"). -/
def logic_install (fmtfn : String → ℚ → String) (strtod : String → ℚ)
    (s : LogicState) (i : Nat) (payload : String) : LogicState × List (String × String) :=
  match s.items.get? i with
  | none => (s, [])
  | some it =>
    match do_item fmtfn strtod
        (rpn_add_ref (rpn_add_ref s.topics it.logic (-1))
          (rpn_parse strtod (split_fmt payload).1) 1)
        { it with logic := rpn_parse strtod (split_fmt payload).1,
                  fmt := (split_fmt payload).2 } with
    | (it2, pubs) =>
      ({ items := s.items.set i it2,
         topics := rpn_add_ref (rpn_add_ref s.topics it.logic (-1))
           (rpn_parse strtod (split_fmt payload).1) 1 }, pubs)

/-- The dependents loop of the data branch: an item whose own topic equals
the changed topic is skipped ("cut loops"); an item whose expression
references the changed topic is re-run with do_item; every other item is
left alone.  The topic cache passed in is the one in force during the pass
(changed flag of the updated topic set). -/
def propagate (fmtfn : String → ℚ → String) (strtod : String → ℚ)
    (tps : List Topic) (mtopic : String) :
    List LItem → List LItem × List (String × String)
  | [] => ([], [])
  | it :: rest =>
    let step :=
      if it.topic = mtopic then (it, ([] : List (String × String)))
      else if rpn_has_ref it.logic mtopic then do_item fmtfn strtod tps it
      else (it, [])
    match propagate fmtfn strtod tps mtopic rest with
    | (rest1, pubs2) => (step.1 :: rest1, step.2 ++ pubs2)

/-- The data branch of my_mqtt_msg on the cache tps0 (the topic cache after
the create-on-non-empty-payload lookup): when the topic is unknown nothing
happens; otherwise the payload is stored, and when the entry's reference
count is non-zero the changed flag is raised, the dependents loop runs, and
the flag is cleared again. -/
def logic_data (fmtfn : String → ℚ → String) (strtod : String → ℚ)
    (its : List LItem) (tps0 : List Topic) (mtopic payload : String) :
    LogicState × List (String × String) :=
  match get_topic0 tps0 mtopic with
  | none => ({ items := its, topics := tps0 }, [])
  | some t =>
    if t.ref ≠ 0 then
      match propagate fmtfn strtod
          (set_changed (set_value tps0 mtopic payload) mtopic true) mtopic its with
      | (its2, pubs) =>
        ({ items := its2,
           topics := set_changed (set_changed (set_value tps0 mtopic payload) mtopic true)
             mtopic false }, pubs)
    else ({ items := its, topics := set_value tps0 mtopic payload }, [])

/-- my_mqtt_msg of mqttlogic.c on one delivered message.  A payload of ""
models payloadlen == 0.  A topic strictly longer than the suffix and ending
in it is a logic spec message: an empty payload drops the matching item (if
any), otherwise the matched or freshly created item is reconfigured.  Any
other topic is a data message: the cached entry (created when the payload
is non-empty) stores the payload, and when its reference count is non-zero
the changed flag is raised, dependents are re-run, and the flag cleared. -/
def logic_msg (cfg : LogicCfg) (fmtfn : String → ℚ → String) (strtod : String → ℚ)
    (s : LogicState) (mtopic payload : String) : LogicState × List (String × String) :=
  if mtopic.data.length > cfg.suffix.data.length ∧
     mtopic.data.drop (mtopic.data.length - cfg.suffix.data.length) = cfg.suffix.data then
    match get_item_idx s.items mtopic (mtopic.data.length - cfg.suffix.data.length) with
    | some i =>
      if payload = "" then ({ s with items := s.items.eraseIdx i }, [])
      else logic_install fmtfn strtod s i payload
    | none =>
      if payload = "" then (s, [])
      else
        logic_install fmtfn strtod
          { s with items :=
              new_litem cfg mtopic (mtopic.data.length - cfg.suffix.data.length) ::
                s.items } 0 payload
  else
    logic_data fmtfn strtod s.items
      (if payload = "" then s.topics else get_topic_create s.topics s.items mtopic)
      mtopic payload

/-- A whole delivery sequence through my_mqtt_msg, collecting publishes. -/
def logic_run (cfg : LogicCfg) (fmtfn : String → ℚ → String) (strtod : String → ℚ) :
    LogicState → List (String × String) → LogicState × List (String × String)
  | s, [] => (s, [])
  | s, (t, p) :: ms =>
    match logic_msg cfg fmtfn strtod s t p with
    | (s1, pubs1) =>
      match logic_run cfg fmtfn strtod s1 ms with
      | (s2, pubs2) => (s2, pubs1 ++ pubs2)

/-! ## lib/libt: the timer scheduler -/

/-- Modelled from the spec: the libt timer scheduler of lib/libt.h, whose
implementation is not under src/ (only its callers are).  Spec 4.1 and the
Timer data model: a pending timeout is a deferred one-shot callback keyed
for cancellation by its (callback, argument) pair; libt_add_timeouta
registers at an absolute due time after first cancelling any pending
timeout of the same pair (replace semantics, at most one pending firing per
pair); libt_remove_timeout is an idempotent targeted cancel; libt_flush
runs the callbacks whose due time has passed.  A due time of none models a
NaN absolute time (never compares due).  Callback side effects during flush
are outside this model: libt_flush only selects the due entries. -/
structure LTimeout (α β : Type) where
  due : Option ℚ
  func : α
  arg : β
deriving DecidableEq

/-- Does the pending timeout belong to the (callback, argument) pair: the
cancellation key of the scheduler. -/
def pair_is [DecidableEq α] [DecidableEq β] (fn : α) (x : β) (t : LTimeout α β) : Bool :=
  decide (t.func = fn) && decide (t.arg = x)

/-- Modelled from the spec: cancel the pending timeout of the (callback,
argument) pair, a no-op when none is pending. -/
def libt_remove_timeout [DecidableEq α] [DecidableEq β] (fn : α) (x : β)
    (q : List (LTimeout α β)) : List (LTimeout α β) :=
  q.filter (fun t => !pair_is fn x t)

/-- Modelled from the spec: schedule at an absolute time, replacing any
pending timeout of the same (callback, argument) pair. -/
def libt_add_timeouta [DecidableEq α] [DecidableEq β] (due : Option ℚ) (fn : α) (x : β)
    (q : List (LTimeout α β)) : List (LTimeout α β) :=
  libt_remove_timeout fn x q ++ [⟨due, fn, x⟩]

/-- Modelled from the spec: one flush pass selects the entries whose due
time has passed (first component) and keeps the rest pending. -/
def libt_flush (now : ℚ) (q : List (LTimeout α β)) :
    List (LTimeout α β) × List (LTimeout α β) :=
  (q.filter (fun t => match t.due with | none => false | some d => decide (d ≤ now)),
   q.filter (fun t => match t.due with | none => true | some d => decide (¬d ≤ now)))

/-- At most one pending timeout per (callback, argument) pair: the
uniqueness invariant the replace semantics maintains. -/
def pair_unique [DecidableEq α] [DecidableEq β] (q : List (LTimeout α β)) : Prop :=
  ∀ (fn : α) (x : β), q.countP (pair_is fn x) ≤ 1

/-! ## C library numeric conversions -/

/-- Numeric value of a decimal digit character. -/
def dig_val (c : Char) : ℕ := c.toNat - '0'.toNat

/-- Value of a digit run in a given base, most significant first. -/
def digits_in_base (b : ℕ) (ds : List Char) : ℕ :=
  ds.foldl (fun a c => a * b + dig_val c) 0

/-- Numeric value of a hexadecimal digit character. -/
def hexdig_val (c : Char) : ℕ :=
  if c.isDigit then dig_val c else c.toLower.toNat - 'a'.toNat + 10

/-- Is the character a hexadecimal digit. -/
def is_hexdig (c : Char) : Bool :=
  c.isDigit || ('a' ≤ c.toLower && c.toLower ≤ 'f')

/-- Is the character an octal digit. -/
def is_octdig (c : Char) : Bool := '0' ≤ c && c ≤ '7'

/-- Is the character one of the isspace class of the C locale. -/
def c_isspace (c : Char) : Bool :=
  c == ' ' || c == '\t' || c == '\n' || c == '\x0b' || c == '\x0c' || c == '\x0d'

/-- The fractional part of a strtod conversion: digits after the point. -/
def frac_val (ds : List Char) : ℚ := (digits_in_base 10 ds : ℚ) / ((10 : ℚ) ^ ds.length)

/-- The exponent part of a strtod conversion: when no digit follows the
exponent letter, nothing from orig on is consumed and the exponent is 0. -/
def exp_part (r orig : List Char) : Int × List Char :=
  let s :=
    match r with
    | '-' :: t => ((-1 : Int), t)
    | '+' :: t => ((1 : Int), t)
    | _ => ((1 : Int), r)
  match s.2.span Char.isDigit with
  | (ed, r3) => if ed = [] then (0, orig) else (s.1 * (digits_in_base 10 ed : Int), r3)

/-- The character-level scan of a strtod conversion: the sign, the integer
and fractional digit runs, the exponent value, and the unconsumed tail. -/
structure CScan where
  neg : Bool
  ip : List Char
  fp : List Char
  ex : Int
  rest : List Char
deriving DecidableEq

/-- The scanning half of strtod: optional leading whitespace and sign,
digits with an optional fractional part, an optional e/E exponent (consumed
only when at least one digit follows). -/
def cstrtod_scan (cs0 : List Char) : CScan :=
  let cs1 := cs0.dropWhile c_isspace
  let sg :=
    match cs1 with
    | '-' :: r => (true, r)
    | '+' :: r => (false, r)
    | _ => (false, cs1)
  match sg.2.span Char.isDigit with
  | (ip, cs3) =>
    let fr :=
      match cs3 with
      | '.' :: r => r.span Char.isDigit
      | _ => ([], cs3)
    let ex :=
      match fr.2 with
      | 'e' :: r => exp_part r fr.2
      | 'E' :: r => exp_part r fr.2
      | _ => ((0 : Int), fr.2)
    { neg := sg.1, ip := ip, fp := fr.1, ex := ex.1, rest := ex.2 }

/-- strtod(s, &end), modelled for the decimal forms.  The hexadecimal,
infinity and nan forms of C strtod are not modelled (none occurs in the
payload grammars of the claims).  Returns the converted value and the
unconsumed tail (the end pointer); when no digits at all can be consumed
the value is 0 and nothing is consumed. -/
def cstrtod (cs0 : List Char) : ℚ × List Char :=
  let p := cstrtod_scan cs0
  if p.ip = [] ∧ p.fp = [] then (0, cs0)
  else
    ((if p.neg then (-1 : ℚ) else 1) * ((digits_in_base 10 p.ip : ℚ) + frac_val p.fp) *
       (10 : ℚ) ^ p.ex,
     p.rest)

/-- strtoul(s, NULL, 0): optional whitespace and sign, then a 0x/0X prefix
for base 16, a leading 0 for base 8, or base 10.  A minus sign negates in
unsigned 64-bit arithmetic.  Saturation at ULONG_MAX on overflow is
modelled as wraparound; the daemons consume the result only through its
zero test, which the difference cannot affect for any realistic payload. -/
def cstrtoul0 (cs0 : List Char) : ℕ :=
  let cs1 := cs0.dropWhile c_isspace
  let sg :=
    match cs1 with
    | '-' :: r => (true, r)
    | '+' :: r => (false, r)
    | _ => (false, cs1)
  let v : ℕ :=
    match sg.2 with
    | '0' :: 'x' :: r => if is_hexdig (r.headD ' ') then digits_in_base 16 (r.takeWhile is_hexdig) else 0
    | '0' :: 'X' :: r => if is_hexdig (r.headD ' ') then digits_in_base 16 (r.takeWhile is_hexdig) else 0
    | '0' :: r => digits_in_base 8 (r.takeWhile is_octdig)
    | r => digits_in_base 10 (r.takeWhile Char.isDigit)
  if sg.1 then (2 ^ 64 - v % 2 ^ 64) % 2 ^ 64 else v % 2 ^ 64

/-! ## mqttimer.c -/

/-- The duration unit dispatch of the timeout-spec parser: the switch on
tolower of the first unconsumed character, with the w/d/h/m cases falling
through so that weeks, days and hours accumulate the lower factors. -/
def delay_unit_scale (v : ℚ) (rest : List Char) : ℚ :=
  match (rest.headD '\x00').toLower with
  | 'w' => v * 7 * 24 * 60 * 60
  | 'd' => v * 24 * 60 * 60
  | 'h' => v * 60 * 60
  | 'm' => v * 60
  | _ => v

/-- The delay of one duration token: strtod for the leading value, then the
unit suffix scaling. -/
def parse_delay_tok (tok : String) : ℚ :=
  match cstrtod tok.data with
  | (v, rest) => delay_unit_scale v rest

/-- struct item of mqttimer.c.  topic stores the full spec topic (strdup of
the creating message topic), topiclen the length with the suffix stripped.
delay and ontime are none when NAN. -/
structure TimerItem where
  topic : String
  topiclen : Nat
  writetopic : Option String
  resetvalue : String
  delay : Option ℚ
  ontime : Option ℚ
deriving DecidableEq

/-- The configuration of one mqttimer process: the spec suffix (default
"/timer"), the optional write suffix, and the global default reset value
(default "0"). -/
structure TimerCfg where
  suffix : String
  write_suffix : Option String
  reset_value : String

/-- The process state of mqttimer: items (newest at the head) and the libt
timer queue; the arg of a pending timeout is the owning item's identity,
modelled by its (unique) stored topic, and the only callback is reset_item,
modelled as the Unit callback. -/
structure TimerState where
  items : List TimerItem
  timers : List (LTimeout Unit String)
deriving DecidableEq

/-- The per-item match test of get_item in mqttimer.c:
(it->topiclen == len) && !strncmp(it->topic, topic, len). -/
def timer_key_match (ittopic : String) (itlen : Nat) (inc : String) (len : Nat) : Bool :=
  decide (itlen = len) && decide (ittopic.data.take len = inc.data.take len)

/-- Does the incoming topic end in the suffix (len >= 0 and
strcmp(topic+len, suffix) == 0 of get_item). -/
def timer_suffix_ok (inc sfx : String) : Bool :=
  decide (sfx.data.length ≤ inc.data.length) &&
  decide (inc.data.drop (inc.data.length - sfx.data.length) = sfx.data)

/-- get_item of mqttimer.c without creation, as an index: NULL when the
suffix does not match, else the first item whose stripped length and prefix
both match.  A NULL suffix argument reads as the empty string. -/
def timer_get_item_idx (its : List TimerItem) (inc : String) (sfx : Option String) : Option Nat :=
  let sx := sfx.getD ("")
  if timer_suffix_ok inc sx then
    its.findIdx? (fun it =>
      timer_key_match it.topic it.topiclen inc (inc.data.length - sx.data.length))
  else none

/-- The freshly created item of mqttimer get_item: full topic stored,
stripped length remembered, default reset value, delay and ontime NAN. -/
def new_timer_item (cfg : TimerCfg) (inc : String) (len : Nat) : TimerItem :=
  { topic := inc
    topiclen := len
    writetopic := cfg.write_suffix.map (fun w => inc ++ w)
    resetvalue := cfg.reset_value
    delay := none
    ontime := none }

/-- The timeout-spec parsing of the mqttimer spec branch (non-empty
payload): the first token gives the delay (NAN when there is no token), the
second token, or the global default, replaces the reset value. -/
def timer_spec_update (cfg : TimerCfg) (it : TimerItem) (payload : String) : TimerItem :=
  let toks := tokenize payload
  { it with
    delay := match toks with
             | [] => none
             | tok :: _ => some (parse_delay_tok tok)
    resetvalue := (toks.get? 1).getD cfg.reset_value }

/-- The re-arming tail of the mqttimer spec branch: always cancel, then
schedule at ontime + delay when both are set. -/
def timer_rearm (it : TimerItem) (tm : List (LTimeout Unit String)) :
    List (LTimeout Unit String) :=
  let tm1 := libt_remove_timeout () it.topic tm
  match it.delay, it.ontime with
  | some d, some t0 => libt_add_timeouta (some (t0 + d)) () it.topic tm1
  | _, _ => tm1

/-- The data branch of mqttimer my_mqtt_msg on the item at index i: a
payload equal to the item's reset value cancels the timeout and clears
ontime; any other payload records ontime and schedules only when ontime was
NAN ("set ontime only on first set"), and is ignored while the item is
already active.  now models libt_now(). -/
def timer_data (now : ℚ) (s : TimerState) (i : Nat) (payload : String) : TimerState :=
  match s.items.get? i with
  | none => s
  | some it =>
    if it.resetvalue = payload then
      { items := s.items.set i { it with ontime := none },
        timers := libt_remove_timeout () it.topic s.timers }
    else if it.ontime = none then
      { items := s.items.set i { it with ontime := some now },
        timers := libt_add_timeouta (it.delay.map (fun d => now + d)) () it.topic
          s.timers }
    else s

/-- my_mqtt_msg of mqttimer.c.  The spec branch is entered when
get_item(topic, suffix, payloadlen) returns an item: the suffix matches and
the item exists or a non-empty payload creates it.  An empty payload there
cancels the item's timeout and drops it; otherwise the spec is parsed and
the timeout re-armed.  Otherwise get_item(topic, NULL, 0) looks the topic
up as a data message. -/
def timer_msg (cfg : TimerCfg) (now : ℚ) (s : TimerState) (mtopic payload : String) :
    TimerState :=
  if timer_suffix_ok mtopic cfg.suffix = true ∧
     (timer_get_item_idx s.items mtopic (some cfg.suffix) ≠ none ∨ payload ≠ "") then
    match timer_get_item_idx s.items mtopic (some cfg.suffix) with
    | some i =>
      match s.items.get? i with
      | none => s
      | some it =>
        if payload = "" then
          { items := s.items.eraseIdx i,
            timers := libt_remove_timeout () it.topic s.timers }
        else
          { items := s.items.set i (timer_spec_update cfg it payload),
            timers := timer_rearm (timer_spec_update cfg it payload) s.timers }
    | none =>
      if payload = "" then s
      else
        { items := timer_spec_update cfg
            (new_timer_item cfg mtopic (mtopic.data.length - cfg.suffix.data.length))
            payload :: s.items,
          timers := timer_rearm (timer_spec_update cfg
            (new_timer_item cfg mtopic (mtopic.data.length - cfg.suffix.data.length))
            payload) s.timers }
  else
    match timer_get_item_idx s.items mtopic none with
    | none => s
    | some i => timer_data now s i payload

/-! ## mqttoff (src/unnamed/part_000) -/

/-- struct item of mqttoff.  The topic is the exact key (stripped for items
created by spec messages, full for items created by data messages); the
reset value may be NULL. -/
structure OffItem where
  topic : String
  resetvalue : Option String
  delay : Option ℚ
  ontime : Option ℚ
deriving DecidableEq

/-- The process state of mqttoff. -/
structure OffState where
  items : List OffItem
  timers : List (LTimeout Unit String)
deriving DecidableEq

/-- get_item of mqttoff as an index: exact strcmp match on the stored
topic. -/
def off_get_item_idx (its : List OffItem) (topic : String) : Option Nat :=
  its.findIdx? (fun it => decide (it.topic = topic))

/-- The mqttoff timeout-spec update for a non-empty payload: first token
gives the delay as in mqttimer, the reset value becomes the second token or
NULL when there is none.  An empty payload changes nothing. -/
def off_spec_update (it : OffItem) (payload : String) : OffItem :=
  if payload = "" then it
  else
    let toks := tokenize payload
    { it with
      delay := match toks with
               | [] => none
               | tok :: _ => some (parse_delay_tok tok)
      resetvalue := toks.get? 1 }

/-- The re-arming tail of the mqttoff spec branch, identical in shape to
mqttimer's. -/
def off_rearm (it : OffItem) (tm : List (LTimeout Unit String)) :
    List (LTimeout Unit String) :=
  let tm1 := libt_remove_timeout () it.topic tm
  match it.delay, it.ontime with
  | some d, some t0 => libt_add_timeouta (some (t0 + d)) () it.topic tm1
  | _, _ => tm1

/-- The reset test of the mqttoff data branch:
(it->resetvalue && !strcmp(it->resetvalue, payload)) ||
(it->resetvalue && !strtoul(payload, NULL, 0)). -/
def off_reset_cond (it : OffItem) (payload : String) : Bool :=
  (match it.resetvalue with | some rv => decide (rv = payload) | none => false) ||
  (decide (it.resetvalue ≠ none) && decide (cstrtoul0 payload.data = 0))

/-- The data branch of mqttoff my_mqtt_msg on the item at index i: empty
payloads are ignored; a payload equal to the (non-NULL) reset value, or any
payload that strtoul parses to zero while a reset value is set, cancels the
timeout and clears ontime; otherwise ontime is set and the timeout
scheduled only on the first set. -/
def off_data (now : ℚ) (s : OffState) (i : Nat) (payload : String) : OffState :=
  match s.items.get? i with
  | none => s
  | some it =>
    if payload = "" then s
    else if off_reset_cond it payload then
      { items := s.items.set i { it with ontime := none },
        timers := libt_remove_timeout () it.topic s.timers }
    else if it.ontime = none then
      { items := s.items.set i { it with ontime := some now },
        timers := libt_add_timeouta (it.delay.map (fun d => now + d)) () it.topic s.timers }
    else s

/-- my_mqtt_msg of mqttoff.  A topic strictly longer than the suffix and
ending in it is a timeout spec message: the item keyed by the stripped
topic is found or created (mqttoff get_item always creates on a miss),
updated when the payload is non-empty, and its timeout re-armed; items are
never dropped.  Any other topic is a data message on the item keyed by the
full topic, again created on a miss. -/
def off_msg (sfx : String) (now : ℚ) (s : OffState) (mtopic payload : String) : OffState :=
  let len := mtopic.data.length
  let sl := sfx.data.length
  if len > sl ∧ mtopic.data.drop (len - sl) = sfx.data then
    let key := String.mk (mtopic.data.take (len - sl))
    match off_get_item_idx s.items key with
    | some i =>
      match s.items.get? i with
      | none => s
      | some it =>
        let it1 := off_spec_update it payload
        { items := s.items.set i it1, timers := off_rearm it1 s.timers }
    | none =>
      let it1 := off_spec_update { topic := key, resetvalue := none,
                                   delay := none, ontime := none } payload
      { items := it1 :: s.items, timers := off_rearm it1 s.timers }
  else
    match off_get_item_idx s.items mtopic with
    | some i => off_data now s i payload
    | none =>
      off_data now
        { s with items := { topic := mtopic, resetvalue := none,
                            delay := none, ontime := none } :: s.items } 0 payload

/-! ## Concrete fixtures used by counterexamples and witnesses -/

/-- The default mqttlogic configuration: suffix "/logic", no write suffix. -/
def cfg0 : LogicCfg := { suffix := "/logic", write_suffix := none }

/-- The default mqttimer configuration: suffix "/timer", no write suffix,
global reset value "0". -/
def tcfg0 : TimerCfg := { suffix := "/timer", write_suffix := none, reset_value := "0" }

/-- A fixed rendering function standing in for sprintf where the rendered
text is irrelevant. -/
def fmt0 : String → ℚ → String := fun _ _ => ""

/-- A rendering function with a constant non-empty result. -/
def fmt_v : String → ℚ → String := fun _ _ => "v"

/-- A fixed conversion standing in for strtod on cached payloads where the
numeric value is irrelevant. -/
def strtod0 : String → ℚ := fun _ => 0

/-- A logic item whose expression is the single operator plus. -/
def item_plus : LItem :=
  { topic := "x", writetopic := none, lastvalue := none,
    logic := [.op .plus], fmt := none }

/-- A logic item whose expression is the single constant 1, with a cached
last published value. -/
def item_one : LItem :=
  { topic := "x", writetopic := none, lastvalue := some "v",
    logic := [.const 1], fmt := none }

/-- The expression the matched item of a spec message holds before the
reconfiguration (the NULL chain when the spec message creates the item). -/
def spec_old_logic (s : LogicState) (mtopic : String) (matchlen : Nat) : List RpnNode :=
  match get_item_idx s.items mtopic matchlen with
  | some i => ((s.items.get? i).map LItem.logic).getD []
  | none => []

/-- No topic cache entry carries a raised changed flag: the resting state
between propagation passes. -/
def all_unchanged (tps : List Topic) : Prop := ∀ t ∈ tps, t.changed = false

/-- A cache holding one topic A with reference count 2. -/
def s_c1w : LogicState :=
  { items := [], topics := [{ topic := "A", value := some "1", ref := 2, changed := false }] }

/-- An item whose output topic is A and whose expression also reads A. -/
def it_self : LItem :=
  { topic := "A", writetopic := none, lastvalue := none,
    logic := [.env "A" none], fmt := none }

/-- An item on another output topic whose expression reads A. -/
def it_dep : LItem :=
  { topic := "y", writetopic := none, lastvalue := none,
    logic := [.env "A" none], fmt := none }

/-- A state with a self-referencing item and a dependent item on topic A. -/
def s_c3w : LogicState :=
  { items := [it_self, it_dep],
    topics := [{ topic := "A", value := some "0", ref := 2, changed := false }] }

/-- An active mqttimer item (delay 10, on since time 5). -/
def it_c10 : TimerItem :=
  { topic := "name/timer", topiclen := 4, writetopic := none,
    resetvalue := "0", delay := some 10, ontime := some 5 }

/-- A state of mqttimer holding the active item. -/
def s_c10 : TimerState := { items := [it_c10], timers := [] }

/-- An active mqttoff item with a configured reset value. -/
def oit_c10 : OffItem :=
  { topic := "lamp", resetvalue := some "off", delay := some 10, ontime := some 3 }

/-- A state of mqttoff holding the active item. -/
def so_c10 : OffState := { items := [oit_c10], timers := [] }

/-! ## Shared helper lemmas -/

theorem frac_val_nil : frac_val [] = 0 := by
  simp [frac_val, digits_in_base]

theorem cstrtod_eval (cs : List Char) (ng : Bool) (ip fp : List Char) (ex : Int)
    (rest : List Char) (h : cstrtod_scan cs = ⟨ng, ip, fp, ex, rest⟩)
    (hne : ip ≠ [] ∨ fp ≠ []) :
    cstrtod cs =
      ((if ng then (-1 : ℚ) else 1) * ((digits_in_base 10 ip : ℚ) + frac_val fp) *
         (10 : ℚ) ^ ex, rest) := by
  have hno : ¬(ip = [] ∧ fp = []) := by
    rintro ⟨h1, h2⟩
    rcases hne with h3 | h3 <;> exact h3 (by assumption)
  simp [cstrtod, h, hno]

theorem parse_delay_eq (tok : String) (v : ℚ) (rest : List Char)
    (h : cstrtod tok.data = (v, rest)) :
    parse_delay_tok tok = delay_unit_scale v rest := by
  simp [parse_delay_tok, h]

theorem dus_m (v : ℚ) (r : List Char) : delay_unit_scale v ('m' :: r) = v * 60 := rfl

theorem dus_h (v : ℚ) (r : List Char) : delay_unit_scale v ('h' :: r) = v * 60 * 60 := rfl

theorem dus_d (v : ℚ) (r : List Char) :
    delay_unit_scale v ('d' :: r) = v * 24 * 60 * 60 := rfl

theorem dus_w (v : ℚ) (r : List Char) :
    delay_unit_scale v ('w' :: r) = v * 7 * 24 * 60 * 60 := rfl

theorem dus_M (v : ℚ) (r : List Char) : delay_unit_scale v ('M' :: r) = v * 60 := rfl

theorem dus_H (v : ℚ) (r : List Char) : delay_unit_scale v ('H' :: r) = v * 60 * 60 := rfl

theorem dus_D (v : ℚ) (r : List Char) :
    delay_unit_scale v ('D' :: r) = v * 24 * 60 * 60 := rfl

theorem dus_W (v : ℚ) (r : List Char) :
    delay_unit_scale v ('W' :: r) = v * 7 * 24 * 60 * 60 := rfl

theorem dus_nil (v : ℚ) : delay_unit_scale v [] = v := rfl

/-! ## Claim theorems -/

/-- C5, counterexample: the claim says the less-than operator compares
numerically without truncating either operand, pushing 1.0 when the
comparison holds.  With second-from-top 0 and top 1/2 the numeric
comparison 0 < 1/2 holds, yet rpn_do_lt pushes 0.0 because the C source
casts the top operand to int (0 < (int)0.5 evaluates 0 < 0). -/
theorem c5_lt_counterexample :
    rpn_do_lt [(1 : ℚ)/2, 0] = (0, [(0 : ℚ)]) ∧ ((0 : ℚ) < 1/2) := by
  constructor
  · show (0, [if (0 : ℚ) < ((ctrunc ((1 : ℚ)/2) : Int) : ℚ) then (1 : ℚ) else 0]) =
      (0, [(0 : ℚ)])
    have hc : ctrunc ((1 : ℚ)/2) = 0 := by
      rw [ctrunc, if_pos (by norm_num), Int.floor_eq_zero_iff]
      constructor <;> norm_num
    rw [hc]
    norm_num
  · norm_num

/-- C5, amended: the operators for less-than and greater-than compare the
untruncated second-from-top operand a against the top operand b truncated
toward zero to a signed integer, pushing 1.0 when the comparison holds and
0.0 otherwise.  The last two conjuncts witness both halves concretely: with
a = -1/2 and b = 0 the result is 1.0 (a is not truncated: truncating it
would give 0 < 0, false), and with a = 0 and b = 9/10 the result is 0.0
(b is truncated: without truncation 0 < 9/10 holds). -/
theorem c5_compare_truncates_top :
    (∀ (a b : ℚ) (st : List ℚ),
       rpn_do_lt (b :: a :: st) =
         (0, (if a < ((ctrunc b : Int) : ℚ) then (1 : ℚ) else 0) :: st)) ∧
    (∀ (a b : ℚ) (st : List ℚ),
       rpn_do_gt (b :: a :: st) =
         (0, (if a > ((ctrunc b : Int) : ℚ) then (1 : ℚ) else 0) :: st)) ∧
    rpn_do_lt [(0 : ℚ), -(1 : ℚ)/2] = (0, [(1 : ℚ)]) ∧
    rpn_do_lt [(9 : ℚ)/10, 0] = (0, [(0 : ℚ)]) := by
  refine ⟨fun a b st => rfl, fun a b st => rfl, ?_, ?_⟩
  · show (0, [if -(1 : ℚ)/2 < ((ctrunc (0 : ℚ) : Int) : ℚ) then (1 : ℚ) else 0]) =
      (0, [(1 : ℚ)])
    have hc : ctrunc (0 : ℚ) = 0 := by
      rw [ctrunc, if_pos le_rfl]
      exact Int.floor_zero
    rw [hc]
    norm_num
  · show (0, [if (0 : ℚ) < ((ctrunc ((9 : ℚ)/10) : Int) : ℚ) then (1 : ℚ) else 0]) =
      (0, [(0 : ℚ)])
    have hc : ctrunc ((9 : ℚ)/10) = 0 := by
      rw [ctrunc, if_pos (by norm_num), Int.floor_eq_zero_iff]
      constructor <;> norm_num
    rw [hc]
    norm_num

/-- C8: duration literals parse as the leading strtod value scaled by the
case-insensitive unit suffix: m gives times 60, h times 3600, d times
86400, w times 604800, and no suffix leaves raw seconds; in particular
"10m" is 600 seconds, "2h" 7200, "1d" 86400, "1w" 604800, "30" 30. -/
theorem c8_duration_units :
    parse_delay_tok "10m" = 600 ∧ parse_delay_tok "2h" = 7200 ∧
    parse_delay_tok "1d" = 86400 ∧ parse_delay_tok "1w" = 604800 ∧
    parse_delay_tok "30" = 30 ∧
    parse_delay_tok "10M" = 600 ∧ parse_delay_tok "2H" = 7200 ∧
    parse_delay_tok "1D" = 86400 ∧ parse_delay_tok "1W" = 604800 ∧
    (∀ (v : ℚ) (r : List Char), delay_unit_scale v ('m' :: r) = v * 60) ∧
    (∀ (v : ℚ) (r : List Char), delay_unit_scale v ('h' :: r) = v * 3600) ∧
    (∀ (v : ℚ) (r : List Char), delay_unit_scale v ('d' :: r) = v * 86400) ∧
    (∀ (v : ℚ) (r : List Char), delay_unit_scale v ('w' :: r) = v * 604800) ∧
    (∀ v : ℚ, delay_unit_scale v [] = v) := by
  refine ⟨?_, ?_, ?_, ?_, ?_, ?_, ?_, ?_, ?_,
    fun v r => dus_m v r,
    fun v r => by rw [dus_h]; ring,
    fun v r => by rw [dus_d]; ring,
    fun v r => by rw [dus_w]; ring,
    fun v => dus_nil v⟩
  · rw [parse_delay_eq _ _ _
      (cstrtod_eval _ false ['1', '0'] [] 0 ['m'] (by decide) (Or.inl (by decide))), dus_m,
      show digits_in_base 10 ['1', '0'] = 10 from by decide, frac_val_nil]
    norm_num
  · rw [parse_delay_eq _ _ _
      (cstrtod_eval _ false ['2'] [] 0 ['h'] (by decide) (Or.inl (by decide))), dus_h,
      show digits_in_base 10 ['2'] = 2 from by decide, frac_val_nil]
    norm_num
  · rw [parse_delay_eq _ _ _
      (cstrtod_eval _ false ['1'] [] 0 ['d'] (by decide) (Or.inl (by decide))), dus_d,
      show digits_in_base 10 ['1'] = 1 from by decide, frac_val_nil]
    norm_num
  · rw [parse_delay_eq _ _ _
      (cstrtod_eval _ false ['1'] [] 0 ['w'] (by decide) (Or.inl (by decide))), dus_w,
      show digits_in_base 10 ['1'] = 1 from by decide, frac_val_nil]
    norm_num
  · rw [parse_delay_eq _ _ _
      (cstrtod_eval _ false ['3', '0'] [] 0 [] (by decide) (Or.inl (by decide))), dus_nil,
      show digits_in_base 10 ['3', '0'] = 30 from by decide, frac_val_nil]
    norm_num
  · rw [parse_delay_eq _ _ _
      (cstrtod_eval _ false ['1', '0'] [] 0 ['M'] (by decide) (Or.inl (by decide))), dus_M,
      show digits_in_base 10 ['1', '0'] = 10 from by decide, frac_val_nil]
    norm_num
  · rw [parse_delay_eq _ _ _
      (cstrtod_eval _ false ['2'] [] 0 ['H'] (by decide) (Or.inl (by decide))), dus_H,
      show digits_in_base 10 ['2'] = 2 from by decide, frac_val_nil]
    norm_num
  · rw [parse_delay_eq _ _ _
      (cstrtod_eval _ false ['1'] [] 0 ['D'] (by decide) (Or.inl (by decide))), dus_D,
      show digits_in_base 10 ['1'] = 1 from by decide, frac_val_nil]
    norm_num
  · rw [parse_delay_eq _ _ _
      (cstrtod_eval _ false ['1'] [] 0 ['W'] (by decide) (Or.inl (by decide))), dus_W,
      show digits_in_base 10 ['1'] = 1 from by decide, frac_val_nil]
    norm_num

/-- C9: a variable reference to a topic absent from the cache yields 0.0
and one informational log message, and is no evaluation error: the run
continues with 0.0 pushed and the rest of the expression evaluated
normally. -/
theorem c9_missing_topic (tps : List Topic) (strtod : String → ℚ) (name : String)
    (opts : Option String) (h : get_topic0 tps name = none) :
    rpn_lookup_env tps strtod name opts = (0, [LOG_INFO]) ∧
    ∀ (st : List ℚ) (rest : List RpnNode),
      rpn_run tps strtod st (RpnNode.env name opts :: rest) =
        rpn_run tps strtod ((0 : ℚ) :: st) rest := by
  have hl : rpn_lookup_env tps strtod name opts = (0, [LOG_INFO]) := by
    simp [rpn_lookup_env, h]
  refine ⟨hl, fun st rest => ?_⟩
  simp [rpn_run, run_node, hl]

/-- Witness for C9 at the cache-free state and the topic missing/topic. -/
theorem c9_witness :
    get_topic0 [] "missing/topic" = none ∧
    rpn_lookup_env [] strtod0 "missing/topic" none = (0, [LOG_INFO]) :=
  ⟨rfl, (c9_missing_topic [] strtod0 "missing/topic" none rfl).1⟩

/-- C2: an operator reached with fewer stack values than its arity makes
rpn_run return -1 immediately, whatever nodes follow; the one-token
expression "+" run on the empty stack fails this way; and do_item publishes
nothing and leaves the item (and so its last published value) unchanged
whenever the run failed or finished with an empty stack. -/
theorem c2_stack_underflow (tps : List Topic) (strtod : String → ℚ) :
    (∀ (st : List ℚ) (o : RpnOp) (rest : List RpnNode), st.length < arity o →
       rpn_run tps strtod st (.op o :: rest) = (-1, st)) ∧
    rpn_run tps strtod [] (rpn_parse strtod "+") = (-1, []) ∧
    (∀ (fmtfn : String → ℚ → String) (it : LItem),
       (rpn_run tps strtod [] it.logic).1 < 0 ∨ (rpn_run tps strtod [] it.logic).2 = [] →
       do_item fmtfn strtod tps it = (it, [])) := by
  refine ⟨?_, rfl, ?_⟩
  · intro st o rest h
    rcases st with _ | ⟨a, _ | ⟨b, st⟩⟩
    · cases o <;> rfl
    · cases o <;> first
        | rfl
        | (exfalso; simp [arity] at h)
    · exfalso
      cases o <;> simp [arity] at h <;> omega
  · intro fmtfn it h
    rcases hr : rpn_run tps strtod [] it.logic with ⟨ret, st⟩
    rw [hr] at h
    by_cases hlt : ret < 0
    · simp [do_item, hr, hlt]
    · rcases h with h | h
      · exact absurd h hlt
      · simp only at h
        subst h
        simp [do_item, hr, hlt]

/-- Witness for C2: the plus operator on the empty stack underflows, and
do_item on an item with that one-token expression changes nothing. -/
theorem c2_witness :
    ([] : List ℚ).length < arity .plus ∧
    rpn_run [] strtod0 [] [RpnNode.op RpnOp.plus] = (-1, []) ∧
    do_item fmt0 strtod0 [] item_plus = (item_plus, []) :=
  ⟨by decide,
   (c2_stack_underflow [] strtod0).1 [] .plus [] (by decide),
   (c2_stack_underflow [] strtod0).2.2 fmt0 item_plus (Or.inl (by decide))⟩

theorem do_item_pubs_le (fmtfn : String → ℚ → String) (strtod : String → ℚ)
    (tps : List Topic) (it : LItem) : (do_item fmtfn strtod tps it).2.length ≤ 1 := by
  rcases hr : rpn_run tps strtod [] it.logic with ⟨ret, st⟩
  rcases st with _ | ⟨top, rest⟩
  · simp [do_item, hr]
  · simp only [do_item, hr]
    split_ifs <;> simp

/-- C4: when the rendered result equals the last published value, do_item
publishes nothing and leaves the stored value unchanged; a publish happens
only when the rendered string differs (and then the stored value becomes
the rendered top of stack); do_item emits at most one publish, so one
propagation pass publishes at most once per item. -/
theorem c4_publish_suppression (fmtfn : String → ℚ → String) (strtod : String → ℚ)
    (tps : List Topic) (it : LItem) (sv : String) (hlast : it.lastvalue = some sv) :
    ((rpn_run tps strtod [] it.logic).1 ≥ 0 →
       ∀ (top : ℚ) (rest : List ℚ), (rpn_run tps strtod [] it.logic).2 = top :: rest →
         fmtfn (it.fmt.getD ("%f")) top = sv → do_item fmtfn strtod tps it = (it, [])) ∧
    (do_item fmtfn strtod tps it).2.length ≤ 1 ∧
    ((do_item fmtfn strtod tps it).2 ≠ [] →
       ((rpn_run tps strtod [] it.logic).2.head?.map (fmtfn (it.fmt.getD ("%f")))) ≠
           some sv ∧
         (do_item fmtfn strtod tps it).1.lastvalue =
           ((rpn_run tps strtod [] it.logic).2.head?.map (fmtfn (it.fmt.getD ("%f"))))) ∧
    (∀ (tps2 : List Topic) (mt : String) (its : List LItem),
       (propagate fmtfn strtod tps2 mt its).2.length ≤ its.length) := by
  refine ⟨?_, do_item_pubs_le fmtfn strtod tps it, ?_, ?_⟩
  · intro hret top rest hst hfmt
    rcases hr : rpn_run tps strtod [] it.logic with ⟨ret, st⟩
    rw [hr] at hret hst
    simp only at hret hst
    subst hst
    have hneg : ¬ret < 0 := by omega
    simp [do_item, hr, hneg, hlast, hfmt]
  · intro hpub
    rcases hr : rpn_run tps strtod [] it.logic with ⟨ret, st⟩
    simp only [do_item, hr] at hpub ⊢
    by_cases hneg : ret < 0
    · simp [hneg] at hpub
    · rcases st with _ | ⟨top, rest⟩
      · simp [hneg] at hpub
      · simp only [hneg, if_false] at hpub ⊢
        by_cases heq : it.lastvalue.getD ("") = fmtfn (it.fmt.getD ("%f")) top
        · rw [if_pos heq] at hpub
          exact absurd rfl hpub
        · constructor
          · simp only [List.head?_cons, Option.map_some']
            intro hc
            apply heq
            rw [hlast]
            simp only [Option.getD_some]
            exact (Option.some.inj hc).symm
          · rw [if_neg heq]
            simp
  · intro tps2 mt its
    induction its with
    | nil => simp [propagate]
    | cons a l ih =>
      rcases hp : propagate fmtfn strtod tps2 mt l with ⟨l1, p2⟩
      rw [hp] at ih
      simp only at ih
      simp only [propagate, hp, List.length_append, List.length_cons]
      have hstep :
          (if a.topic = mt then (a, ([] : List (String × String)))
           else if rpn_has_ref a.logic mt then do_item fmtfn strtod tps2 a
           else (a, [])).2.length ≤ 1 := by
        split_ifs with h1 h2
        · simp
        · exact do_item_pubs_le fmtfn strtod tps2 a
        · simp
      omega

/-- Witness for C4: an item whose expression is the constant 1 and whose
last published value equals the rendered result republishes nothing. -/
theorem c4_witness :
    item_one.lastvalue = some "v" ∧
    do_item fmt_v strtod0 [] item_one = (item_one, []) :=
  ⟨rfl,
   (c4_publish_suppression fmt_v strtod0 [] item_one "v" rfl).1 (by decide) 1 [] rfl rfl⟩

/-- C6: a stored item matches an incoming topic in the suffix-stripped
registries only on exact stripped-length equality: the mqttlogic match test
holds exactly when the key equals the length-matchlen front of the incoming
topic, the mqttimer match test holds exactly when the stored stripped
length equals the incoming stripped length and the front parts agree, a
found item always has the stripped incoming topic as its key, looking up
foo10/alarm with suffix /alarm never matches a key foo1, and name1 and
name10 never alias in either direction. -/
theorem c6_exact_length_match :
    (∀ (key inc : String) (n : Nat), n ≤ inc.data.length →
       (logic_key_match key inc n = true ↔ key.data = inc.data.take n)) ∧
    (∀ (ittopic : String) (itlen : Nat) (inc : String) (n : Nat),
       (timer_key_match ittopic itlen inc n = true ↔
         itlen = n ∧ ittopic.data.take n = inc.data.take n)) ∧
    (∀ (its : List LItem) (inc : String) (n i : Nat) (it : LItem),
       n ≤ inc.data.length → get_item_idx its inc n = some i → its.get? i = some it →
       it.topic.data = inc.data.take n) ∧
    logic_key_match "foo1" "foo10/alarm" 5 = false ∧
    timer_get_item_idx
      [{ topic := "foo1/alarm", topiclen := 4, writetopic := none,
         resetvalue := "0", delay := none, ontime := none }] "foo10/alarm"
      (some "/alarm") = none ∧
    logic_key_match "name1" "name10/logic" 6 = false ∧
    logic_key_match "name10" "name1/logic" 5 = false := by
  have ha : ∀ (key inc : String) (n : Nat), n ≤ inc.data.length →
      (logic_key_match key inc n = true ↔ key.data = inc.data.take n) := by
    intro key inc n hn
    simp only [logic_key_match, Bool.and_eq_true, decide_eq_true_eq]
    constructor
    · rintro ⟨h1, h2⟩
      conv_lhs => rw [← List.take_of_length_le h2]
      exact h1
    · intro h
      refine ⟨?_, ?_⟩
      · rw [h, List.take_take, min_self]
      · rw [h, List.length_take]
        exact inf_le_left
  refine ⟨ha, ?_, ?_, by decide, by decide, by decide, by decide⟩
  · intro ittopic itlen inc n
    simp [timer_key_match, Bool.and_eq_true, decide_eq_true_eq]
  · intro its inc n i it hn hfind hget
    rw [get_item_idx] at hfind
    obtain ⟨hlt, hp, -⟩ := List.findIdx?_eq_some_iff_getElem.mp hfind
    have hge : its[i]? = some it := by
      simpa [List.get?_eq_getElem?] using hget
    obtain ⟨hlt2, hel⟩ := List.getElem?_eq_some_iff.mp hge
    rw [hel] at hp
    exact (ha it.topic inc n hn).mp hp

/-- Witness for C6: an exact stripped key does match. -/
theorem c6_witness : logic_key_match "foo10" "foo10/alarm" 5 = true :=
  ((c6_exact_length_match).1 "foo10" "foo10/alarm" 5 (by decide)).mpr (by decide)

theorem filter_remove_pair {α β : Type} [DecidableEq α] [DecidableEq β] (fn : α) (x : β)
    (q : List (LTimeout α β)) :
    (libt_remove_timeout fn x q).filter (pair_is fn x) = [] := by
  rw [libt_remove_timeout, List.filter_filter]
  have h : ∀ t : LTimeout α β, (pair_is fn x t && !pair_is fn x t) = false := by
    intro t
    cases pair_is fn x t <;> rfl
  simp only [h]
  exact List.filter_false q

theorem countP_remove_pair_le {α β : Type} [DecidableEq α] [DecidableEq β]
    (fn g : α) (x y : β) (q : List (LTimeout α β)) :
    (libt_remove_timeout fn x q).countP (pair_is g y) ≤ q.countP (pair_is g y) :=
  List.Sublist.countP_le _ (List.filter_sublist q)

theorem pair_unique_add {α β : Type} [DecidableEq α] [DecidableEq β]
    {q : List (LTimeout α β)} (hq : pair_unique q) (d : Option ℚ) (f2 : α) (x2 : β) :
    pair_unique (libt_add_timeouta d f2 x2 q) := by
  intro g y
  rw [libt_add_timeouta, List.countP_append]
  by_cases hg : f2 = g ∧ x2 = y
  · obtain ⟨hg1, hg2⟩ := hg
    subst hg1
    subst hg2
    have h0 : (libt_remove_timeout f2 x2 q).countP (pair_is f2 x2) = 0 := by
      rw [List.countP_eq_length_filter, filter_remove_pair]
      rfl
    have h1 : ([⟨d, f2, x2⟩] : List (LTimeout α β)).countP (pair_is f2 x2) = 1 := by
      simp [List.countP_cons, pair_is]
    omega
  · have h1 : ([⟨d, f2, x2⟩] : List (LTimeout α β)).countP (pair_is g y) = 0 := by
      rcases not_and_or.mp hg with h | h <;>
        simp [List.countP_cons, pair_is, h]
    have h2 := countP_remove_pair_le f2 g x2 y q
    have h3 := hq g y
    omega

theorem pair_unique_remove {α β : Type} [DecidableEq α] [DecidableEq β]
    {q : List (LTimeout α β)} (hq : pair_unique q) (f2 : α) (x2 : β) :
    pair_unique (libt_remove_timeout f2 x2 q) := by
  intro g y
  exact le_trans (countP_remove_pair_le f2 g x2 y q) (hq g y)

/-- C7: scheduling the same (callback, argument) pair a second time before
it fires replaces the first request: afterwards exactly one timeout of the
pair is pending and it carries the most recently requested due time; the
at-most-one-per-pair invariant holds after the double schedule and is
preserved by any add or remove from an invariant state; and one flush pass
fires the pair at most once. -/
theorem c7_timer_replace {α β : Type} [DecidableEq α] [DecidableEq β]
    (q : List (LTimeout α β)) (t1 t2 : ℚ) (f : α) (x : β) (hq : pair_unique q) :
    (libt_add_timeouta (some t2) f x (libt_add_timeouta (some t1) f x q)).filter
        (pair_is f x) = [⟨some t2, f, x⟩] ∧
    pair_unique (libt_add_timeouta (some t2) f x (libt_add_timeouta (some t1) f x q)) ∧
    (∀ now : ℚ,
       (libt_flush now (libt_add_timeouta (some t2) f x
          (libt_add_timeouta (some t1) f x q))).1.countP (pair_is f x) ≤ 1) ∧
    (∀ (d : Option ℚ) (f2 : α) (x2 : β), pair_unique (libt_add_timeouta d f2 x2 q)) ∧
    (∀ (f2 : α) (x2 : β), pair_unique (libt_remove_timeout f2 x2 q)) := by
  have huniq : pair_unique (libt_add_timeouta (some t2) f x
      (libt_add_timeouta (some t1) f x q)) :=
    pair_unique_add (pair_unique_add hq (some t1) f x) (some t2) f x
  refine ⟨?_, huniq, ?_, fun d f2 x2 => pair_unique_add hq d f2 x2,
    fun f2 x2 => pair_unique_remove hq f2 x2⟩
  · rw [libt_add_timeouta, List.filter_append, filter_remove_pair]
    simp [pair_is]
  · intro now
    refine le_trans ?_ (huniq f x)
    exact List.Sublist.countP_le _ (List.filter_sublist _)

/-- Witness for C7 from the empty queue. -/
theorem c7_witness :
    pair_unique ([] : List (LTimeout Nat Nat)) ∧
    (libt_add_timeouta (some 2) 0 0 (libt_add_timeouta (some 1) 0 0
        ([] : List (LTimeout Nat Nat)))).filter (pair_is 0 0) = [⟨some 2, 0, 0⟩] := by
  have h0 : pair_unique ([] : List (LTimeout Nat Nat)) := by
    intro fn x
    simp [List.countP_nil]
  exact ⟨h0, (c7_timer_replace [] 1 2 0 0 h0).1⟩

theorem get_topic0_cons_hit (a : Topic) (l : List Topic) (name : String)
    (h : a.topic = name) : get_topic0 (a :: l) name = some a := by
  rw [get_topic0, List.find?_cons_of_pos]
  simp [h]

theorem get_topic0_cons_skip (a : Topic) (l : List Topic) (name : String)
    (h : a.topic ≠ name) : get_topic0 (a :: l) name = get_topic0 l name := by
  rw [get_topic0, get_topic0, List.find?_cons_of_neg]
  simp [h]

theorem upd_topic_cons (t : Topic) (rest : List Topic) (name : String)
    (f : Topic → Topic) :
    upd_topic (t :: rest) name f =
      (if t.topic = name then f t else t) :: upd_topic rest name f := rfl

theorem get_topic0_upd (tps : List Topic) (name : String) (f : Topic → Topic)
    (hf : ∀ t, (f t).topic = t.topic) (name2 : String) :
    get_topic0 (upd_topic tps name f) name2 =
      if name2 = name then (get_topic0 tps name2).map f else get_topic0 tps name2 := by
  induction tps with
  | nil => simp [get_topic0, upd_topic]
  | cons t rest ih =>
    rw [upd_topic_cons]
    by_cases h2 : t.topic = name2
    · by_cases ht : t.topic = name
      · have hname : name2 = name := by rw [← h2, ht]
        rw [get_topic0_cons_hit _ _ _ (by rw [if_pos ht, hf, h2]), if_pos hname,
          get_topic0_cons_hit _ _ _ h2, if_pos ht]
        rfl
      · have hname : ¬name2 = name := fun hh => ht (h2.trans hh)
        rw [get_topic0_cons_hit _ _ _ (by rw [if_neg ht]; exact h2), if_neg hname,
          get_topic0_cons_hit _ _ _ h2, if_neg ht]
    · have hrest : get_topic0 (t :: rest) name2 = get_topic0 rest name2 :=
        get_topic0_cons_skip _ _ _ h2
      have hskip : get_topic0 ((if t.topic = name then f t else t) :: upd_topic rest name f)
          name2 = get_topic0 (upd_topic rest name f) name2 := by
        apply get_topic0_cons_skip
        split_ifs with ht
        · rw [hf]; exact h2
        · exact h2
      rw [hskip, hrest, ih]

theorem get_topic0_bump (tps : List Topic) (nm : String) (d : Int) (name : String) :
    get_topic0 (bump_ref tps nm d) name =
      if name = nm then (get_topic0 tps name).map (fun t => { t with ref := t.ref + d })
      else get_topic0 tps name := by
  rw [bump_ref]
  exact get_topic0_upd tps nm (fun t => { t with ref := t.ref + d }) (fun _ => rfl) name

theorem get_topic0_add_ref (nodes : List RpnNode) (tps : List Topic) (d : Int)
    (name : String) :
    get_topic0 (rpn_add_ref tps nodes d) name =
      (get_topic0 tps name).map
        (fun t => { t with ref := t.ref + d * (countRefs nodes name : Int) }) := by
  induction nodes generalizing tps with
  | nil =>
    rcases h : get_topic0 tps name with _ | t <;>
      simp [rpn_add_ref, countRefs, h]
  | cons n ns ih =>
    rcases hn : topicOf n with _ | nm
    · have hcount : countRefs (n :: ns) name = countRefs ns name := by
        simp [countRefs, List.countP_cons, hn]
      have hstep : rpn_add_ref tps (n :: ns) d = rpn_add_ref tps ns d := by
        simp only [rpn_add_ref, List.foldl_cons, hn]
      rw [hstep, ih, hcount]
    · rcases hg : get_topic0 tps nm with _ | t0
      · have hstep : rpn_add_ref tps (n :: ns) d = rpn_add_ref tps ns d := by
          simp only [rpn_add_ref, List.foldl_cons, hn, hg]
        rw [hstep, ih]
        by_cases hnm : nm = name
        · subst hnm
          rw [hg]
          rfl
        · have hcount : countRefs (n :: ns) name = countRefs ns name := by
            simp [countRefs, List.countP_cons, hn]
            intro hc
            exact absurd hc hnm
          rw [hcount]
      · have hstep : rpn_add_ref tps (n :: ns) d =
            rpn_add_ref (bump_ref tps nm d) ns d := by
          simp only [rpn_add_ref, List.foldl_cons, hn, hg]
        rw [hstep, ih, get_topic0_bump]
        by_cases hnm : name = nm
        · subst hnm
          rw [if_pos rfl, Option.map_map]
          have hcount : countRefs (n :: ns) name = countRefs ns name + 1 := by
            simp [countRefs, List.countP_cons, hn]
          rw [hcount]
          rcases get_topic0 tps name with _ | t
          · rfl
          · simp only [Option.map_some', Function.comp_apply, Option.some.injEq,
              Topic.mk.injEq, true_and, and_true]
            push_cast
            ring
        · rw [if_neg hnm]
          have hcount : countRefs (n :: ns) name = countRefs ns name := by
            simp [countRefs, List.countP_cons, hn]
            intro hc
            exact absurd hc.symm hnm
          rw [hcount]

theorem rpn_add_ref_nil (tps : List Topic) (d : Int) : rpn_add_ref tps [] d = tps := rfl

theorem logic_install_topics (fmtfn : String → ℚ → String) (strtod : String → ℚ)
    (s : LogicState) (i : Nat) (it : LItem) (payload : String)
    (hit : s.items.get? i = some it) :
    (logic_install fmtfn strtod s i payload).1.topics =
      rpn_add_ref (rpn_add_ref s.topics it.logic (-1))
        (rpn_parse strtod (split_fmt payload).1) 1 := by
  simp only [logic_install, hit]

theorem logic_msg_spec_some (cfg : LogicCfg) (fmtfn : String → ℚ → String)
    (strtod : String → ℚ) (s : LogicState) (mtopic payload : String) (i : Nat)
    (hs : mtopic.data.length > cfg.suffix.data.length ∧
          mtopic.data.drop (mtopic.data.length - cfg.suffix.data.length) = cfg.suffix.data)
    (hf : get_item_idx s.items mtopic (mtopic.data.length - cfg.suffix.data.length) =
          some i) :
    logic_msg cfg fmtfn strtod s mtopic payload =
      if payload = "" then ({ s with items := s.items.eraseIdx i }, [])
      else logic_install fmtfn strtod s i payload := by
  rw [logic_msg, if_pos hs, hf]

theorem logic_msg_spec_none (cfg : LogicCfg) (fmtfn : String → ℚ → String)
    (strtod : String → ℚ) (s : LogicState) (mtopic payload : String)
    (hs : mtopic.data.length > cfg.suffix.data.length ∧
          mtopic.data.drop (mtopic.data.length - cfg.suffix.data.length) = cfg.suffix.data)
    (hf : get_item_idx s.items mtopic (mtopic.data.length - cfg.suffix.data.length) =
          none) :
    logic_msg cfg fmtfn strtod s mtopic payload =
      if payload = "" then (s, [])
      else
        logic_install fmtfn strtod
          { s with items :=
              new_litem cfg mtopic (mtopic.data.length - cfg.suffix.data.length) ::
                s.items } 0 payload := by
  rw [logic_msg, if_pos hs, hf]

theorem logic_msg_data_eq (cfg : LogicCfg) (fmtfn : String → ℚ → String)
    (strtod : String → ℚ) (s : LogicState) (mtopic payload : String)
    (hb : ¬(mtopic.data.length > cfg.suffix.data.length ∧
            mtopic.data.drop (mtopic.data.length - cfg.suffix.data.length) =
              cfg.suffix.data)) :
    logic_msg cfg fmtfn strtod s mtopic payload =
      logic_data fmtfn strtod s.items
        (if payload = "" then s.topics else get_topic_create s.topics s.items mtopic)
        mtopic payload := by
  rw [logic_msg, if_neg hb]

/-- C1, counterexample: the claim says a topic's reference count always
equals the number of live items whose expression references it, and that
deleting an item with an empty spec payload decrements the counts of its
referenced topics.  After caching topic A, installing an item x whose
expression reads A (count 1), and deleting x with an empty spec payload,
the item list is empty yet A's count is still 1: drop_item never calls
rpn_unref. -/
theorem c1_refcount_counterexample :
    (logic_run cfg0 fmt0 strtod0 { items := [], topics := [] }
      [("A", "1"), ("x/logic", "$\x7bA\x7d"), ("x/logic", "")]).1.items = [] ∧
    (logic_run cfg0 fmt0 strtod0 { items := [], topics := [] }
      [("A", "1"), ("x/logic", "$\x7bA\x7d"), ("x/logic", "")]).1.topics =
      [{ topic := "A", value := some "1", ref := 1, changed := false }] := by
  constructor <;> decide

/-- C1, amended: reference counts move only with the install and replace
halves of the spec path, counting one per expression node (not per item)
and touching only topics already cached: a non-empty spec message changes
every cached topic's count by the number of nodes of the newly parsed
expression referencing it minus the number of nodes of the replaced
expression referencing it (so replacing an expression over topics A, B with
one over B, C, all cached and each referenced once, drops A's count by one,
keeps B's, and raises C's by one); an empty spec payload, which deletes the
item, leaves the whole topic cache unchanged, so deletion never decrements
the counts. -/
theorem c1_refcount_amended (cfg : LogicCfg) (fmtfn : String → ℚ → String)
    (strtod : String → ℚ) (s : LogicState) (mtopic payload : String)
    (hs : mtopic.data.length > cfg.suffix.data.length ∧
          mtopic.data.drop (mtopic.data.length - cfg.suffix.data.length) =
            cfg.suffix.data) :
    (payload = "" → (logic_msg cfg fmtfn strtod s mtopic payload).1.topics = s.topics) ∧
    (payload ≠ "" →
       ∀ name,
         get_topic0 (logic_msg cfg fmtfn strtod s mtopic payload).1.topics name =
           (get_topic0 s.topics name).map (fun t =>
             { t with ref := t.ref
                 - (countRefs (spec_old_logic s mtopic
                     (mtopic.data.length - cfg.suffix.data.length)) name : Int)
                 + (countRefs (rpn_parse strtod (split_fmt payload).1) name : Int) })) := by
  constructor
  · intro hpl
    subst hpl
    rcases hf : get_item_idx s.items mtopic
        (mtopic.data.length - cfg.suffix.data.length) with _ | i
    · rw [logic_msg_spec_none cfg fmtfn strtod s mtopic "" hs hf, if_pos rfl]
    · rw [logic_msg_spec_some cfg fmtfn strtod s mtopic "" i hs hf, if_pos rfl]
  · intro hpl name
    rcases hf : get_item_idx s.items mtopic
        (mtopic.data.length - cfg.suffix.data.length) with _ | i
    · rw [logic_msg_spec_none cfg fmtfn strtod s mtopic payload hs hf, if_neg hpl]
      set s2 : LogicState :=
        { s with items :=
            new_litem cfg mtopic (mtopic.data.length - cfg.suffix.data.length) ::
              s.items } with hs2
      have hit2 : s2.items.get? 0 =
          some (new_litem cfg mtopic (mtopic.data.length - cfg.suffix.data.length)) := by
        rw [hs2]
        rfl
      rw [logic_install_topics fmtfn strtod s2 0
        (new_litem cfg mtopic (mtopic.data.length - cfg.suffix.data.length)) payload hit2]
      have hnil : (new_litem cfg mtopic
          (mtopic.data.length - cfg.suffix.data.length)).logic = [] := rfl
      rw [hnil, rpn_add_ref_nil]
      have hold : spec_old_logic s mtopic (mtopic.data.length - cfg.suffix.data.length) =
          [] := by
        rw [spec_old_logic, hf]
      rw [hold]
      have htps2 : s2.topics = s.topics := by rw [hs2]
      rw [htps2, get_topic0_add_ref]
      rcases get_topic0 s.topics name with _ | t
      · rfl
      · simp only [Option.map_some', Option.some.injEq, Topic.mk.injEq, countRefs,
          List.countP_nil, true_and, and_true]
        push_cast
        ring
    · rw [logic_msg_spec_some cfg fmtfn strtod s mtopic payload i hs hf, if_neg hpl]
      obtain ⟨hlt, -, -⟩ := List.findIdx?_eq_some_iff_getElem.mp hf
      have hgot : s.items.get? i = some s.items[i] := by
        rw [List.get?_eq_getElem?]
        exact List.getElem?_eq_some_iff.mpr ⟨hlt, rfl⟩
      rw [logic_install_topics fmtfn strtod s i s.items[i] payload hgot]
      rw [get_topic0_add_ref, get_topic0_add_ref, Option.map_map]
      have hold : spec_old_logic s mtopic (mtopic.data.length - cfg.suffix.data.length) =
          s.items[i].logic := by
        rw [spec_old_logic, hf]
        show ((s.items.get? i).map LItem.logic).getD [] = s.items[i].logic
        rw [hgot]
        rfl
      rw [hold]
      rcases get_topic0 s.topics name with _ | t
      · rfl
      · simp only [Option.map_some', Function.comp_apply, Option.some.injEq,
          Topic.mk.injEq, true_and, and_true]
        ring

theorem get_topic0_set_changed (tps : List Topic) (name : String) (b : Bool)
    (name2 : String) :
    get_topic0 (set_changed tps name b) name2 =
      if name2 = name then (get_topic0 tps name2).map (fun t => { t with changed := b })
      else get_topic0 tps name2 := by
  rw [set_changed]
  exact get_topic0_upd tps name (fun t => { t with changed := b }) (fun _ => rfl) name2

theorem get_topic0_set_value (tps : List Topic) (name v : String) (name2 : String) :
    get_topic0 (set_value tps name v) name2 =
      if name2 = name then (get_topic0 tps name2).map (fun t => { t with value := some v })
      else get_topic0 tps name2 := by
  rw [set_value]
  exact get_topic0_upd tps name (fun t => { t with value := some v }) (fun _ => rfl) name2

theorem propagate_get?_eq (fmtfn : String → ℚ → String) (strtod : String → ℚ)
    (tps : List Topic) (mt : String) (its : List LItem) (i : Nat) :
    (propagate fmtfn strtod tps mt its).1.get? i =
      (its.get? i).map (fun it =>
        if it.topic = mt then it
        else if rpn_has_ref it.logic mt then (do_item fmtfn strtod tps it).1 else it) := by
  induction its generalizing i with
  | nil => simp [propagate]
  | cons a l ih =>
    rcases hp : propagate fmtfn strtod tps mt l with ⟨l1, p2⟩
    have ih2 : ∀ j : Nat, l1.get? j =
        (l.get? j).map (fun it =>
          if it.topic = mt then it
          else if rpn_has_ref it.logic mt then (do_item fmtfn strtod tps it).1 else it) := by
      intro j
      have hj := ih j
      rw [hp] at hj
      exact hj
    cases i with
    | zero =>
      simp only [propagate, hp, List.get?_cons_zero, Option.map_some']
      by_cases h1 : a.topic = mt
      · simp [h1]
      · by_cases h2 : rpn_has_ref a.logic mt <;> simp [h1, h2]
    | succ n =>
      simp only [propagate, hp, List.get?_cons_succ]
      exact ih2 n

theorem all_unchanged_upd (tps : List Topic) (name : String) (f : Topic → Topic)
    (hf : ∀ t, (f t).changed = t.changed) (h : all_unchanged tps) :
    all_unchanged (upd_topic tps name f) := by
  intro t ht
  rw [upd_topic] at ht
  obtain ⟨t0, ht0, rfl⟩ := List.mem_map.mp ht
  split_ifs with h0
  · rw [hf]
    exact h t0 ht0
  · exact h t0 ht0

theorem all_unchanged_add_ref (nodes : List RpnNode) :
    ∀ (tps : List Topic) (d : Int), all_unchanged tps →
      all_unchanged (rpn_add_ref tps nodes d) := by
  induction nodes with
  | nil => intro tps d h; exact h
  | cons n ns ih =>
    intro tps d h
    rcases hn : topicOf n with _ | nm
    · rw [show rpn_add_ref tps (n :: ns) d = rpn_add_ref tps ns d from by
        simp only [rpn_add_ref, List.foldl_cons, hn]]
      exact ih tps d h
    · rcases hg : get_topic0 tps nm with _ | t0
      · rw [show rpn_add_ref tps (n :: ns) d = rpn_add_ref tps ns d from by
          simp only [rpn_add_ref, List.foldl_cons, hn, hg]]
        exact ih tps d h
      · rw [show rpn_add_ref tps (n :: ns) d = rpn_add_ref (bump_ref tps nm d) ns d from by
          simp only [rpn_add_ref, List.foldl_cons, hn, hg]]
        refine ih _ d ?_
        rw [bump_ref]
        exact all_unchanged_upd tps nm _ (fun t => rfl) h

theorem all_unchanged_create (tps : List Topic) (its : List LItem) (name : String)
    (h : all_unchanged tps) : all_unchanged (get_topic_create tps its name) := by
  rcases hg : get_topic0 tps name with _ | t
  · simp only [get_topic_create, hg]
    intro t ht
    rcases List.mem_append.mp ht with h1 | h1
    · exact h t h1
    · rw [List.mem_singleton] at h1
      rw [h1]
  · simp only [get_topic_create, hg]
    exact h

theorem offname_unchanged (tps1 : List Topic) (name : String) (b : Bool)
    (h : all_unchanged tps1) :
    ∀ t ∈ set_changed tps1 name b, t.topic ≠ name → t.changed = false := by
  intro t ht hn
  rw [set_changed, upd_topic] at ht
  obtain ⟨t1, ht1, rfl⟩ := List.mem_map.mp ht
  by_cases h1 : t1.topic = name
  · rw [if_pos h1] at hn
    exact absurd h1 hn
  · rw [if_neg h1] at hn ⊢
    exact h t1 ht1

theorem all_unchanged_after_reset (tps2 : List Topic) (name : String)
    (h : ∀ t ∈ tps2, t.topic ≠ name → t.changed = false) :
    all_unchanged (set_changed tps2 name false) := by
  intro t ht
  rw [set_changed, upd_topic] at ht
  obtain ⟨t0, ht0, rfl⟩ := List.mem_map.mp ht
  split_ifs with h0
  · rfl
  · exact h t0 ht0 h0

/-- Witness for C1 at a cache holding topic A with count 2: installing an
expression reading A once onto a fresh item raises the count to 3. -/
theorem c1_refcount_witness :
    ("x/logic" : String).data.length > cfg0.suffix.data.length ∧
    get_topic0 (logic_msg cfg0 fmt0 strtod0 s_c1w "x/logic" "$\x7bA\x7d").1.topics "A" =
      some { topic := "A", value := some "1", ref := 3, changed := false } := by
  refine ⟨by decide, ?_⟩
  have h := (c1_refcount_amended cfg0 fmt0 strtod0 s_c1w "x/logic" "$\x7bA\x7d"
    ⟨by decide, by decide⟩).2 (by decide) "A"
  rw [h]
  decide

/-- C3: a data message on a cached topic with non-zero reference count
re-runs, via do_item under a cache whose changed flag for that topic is
raised, exactly the items whose expression references the topic, except
that an item whose own configured topic string equals the updated topic is
skipped and left untouched; after the handler the topic's entry holds the
new payload with its changed flag back at false; and from any resting state
(all changed flags false) any message whatever leaves all changed flags
false again. -/
theorem c3_self_skip_changed_flag (cfg : LogicCfg) (fmtfn : String → ℚ → String)
    (strtod : String → ℚ) (s : LogicState) (mtopic payload : String) (T : Topic)
    (hb : ¬(mtopic.data.length > cfg.suffix.data.length ∧
            mtopic.data.drop (mtopic.data.length - cfg.suffix.data.length) =
              cfg.suffix.data))
    (hT : get_topic0 s.topics mtopic = some T) (href : T.ref ≠ 0) :
    (∀ (i : Nat) (it : LItem), s.items.get? i = some it → it.topic = mtopic →
       (logic_msg cfg fmtfn strtod s mtopic payload).1.items.get? i = some it) ∧
    (∀ (i : Nat) (it : LItem), s.items.get? i = some it → it.topic ≠ mtopic →
       rpn_has_ref it.logic mtopic = true →
       (logic_msg cfg fmtfn strtod s mtopic payload).1.items.get? i =
         some (do_item fmtfn strtod
           (set_changed (set_value s.topics mtopic payload) mtopic true) it).1) ∧
    (∀ (i : Nat) (it : LItem), s.items.get? i = some it → it.topic ≠ mtopic →
       rpn_has_ref it.logic mtopic = false →
       (logic_msg cfg fmtfn strtod s mtopic payload).1.items.get? i = some it) ∧
    (get_topic0 (logic_msg cfg fmtfn strtod s mtopic payload).1.topics mtopic =
       some { T with value := some payload, changed := false }) ∧
    (∀ (s2 : LogicState) (mt2 p2 : String), all_unchanged s2.topics →
       all_unchanged (logic_msg cfg fmtfn strtod s2 mt2 p2).1.topics) := by
  have htps0 : (if payload = "" then s.topics
      else get_topic_create s.topics s.items mtopic) = s.topics := by
    split_ifs with h0
    · rfl
    · rw [get_topic_create, hT]
  have hmsg : logic_msg cfg fmtfn strtod s mtopic payload =
      logic_data fmtfn strtod s.items s.topics mtopic payload := by
    rw [logic_msg_data_eq cfg fmtfn strtod s mtopic payload hb, htps0]
  rcases hp : propagate fmtfn strtod
      (set_changed (set_value s.topics mtopic payload) mtopic true) mtopic s.items
      with ⟨its2, pubs⟩
  have hdata : logic_data fmtfn strtod s.items s.topics mtopic payload =
      ({ items := its2,
         topics := set_changed
           (set_changed (set_value s.topics mtopic payload) mtopic true)
           mtopic false }, pubs) := by
    simp only [logic_data, hT, if_pos href, hp]
  have hget : ∀ j : Nat, its2.get? j =
      (s.items.get? j).map (fun it =>
        if it.topic = mtopic then it
        else if rpn_has_ref it.logic mtopic then
          (do_item fmtfn strtod
            (set_changed (set_value s.topics mtopic payload) mtopic true) it).1
        else it) := by
    intro j
    have hq := propagate_get?_eq fmtfn strtod
      (set_changed (set_value s.topics mtopic payload) mtopic true) mtopic s.items j
    rw [hp] at hq
    exact hq
  refine ⟨?_, ?_, ?_, ?_, ?_⟩
  · intro i it hgi hsame
    rw [hmsg, hdata]
    simp only
    rw [hget i, hgi]
    simp [hsame]
  · intro i it hgi hdiff hhas
    rw [hmsg, hdata]
    simp only
    rw [hget i, hgi]
    simp [hdiff, hhas]
  · intro i it hgi hdiff hhas
    rw [hmsg, hdata]
    simp only
    rw [hget i, hgi]
    simp [hdiff, hhas]
  · rw [hmsg, hdata]
    simp only
    rw [get_topic0_set_changed, if_pos rfl, get_topic0_set_changed, if_pos rfl,
      get_topic0_set_value, if_pos rfl, hT]
    rfl
  · intro s2 mt2 p2 h2
    by_cases hb2 : mt2.data.length > cfg.suffix.data.length ∧
        mt2.data.drop (mt2.data.length - cfg.suffix.data.length) = cfg.suffix.data
    · rcases hf2 : get_item_idx s2.items mt2
          (mt2.data.length - cfg.suffix.data.length) with _ | i
      · rw [logic_msg_spec_none cfg fmtfn strtod s2 mt2 p2 hb2 hf2]
        by_cases hp2 : p2 = ""
        · rw [if_pos hp2]
          exact h2
        · rw [if_neg hp2]
          set s3 : LogicState :=
            { s2 with items :=
                new_litem cfg mt2 (mt2.data.length - cfg.suffix.data.length) ::
                  s2.items } with hs3
          have hit3 : s3.items.get? 0 =
              some (new_litem cfg mt2 (mt2.data.length - cfg.suffix.data.length)) := by
            rw [hs3]
            rfl
          rw [logic_install_topics fmtfn strtod s3 0
            (new_litem cfg mt2 (mt2.data.length - cfg.suffix.data.length)) p2 hit3]
          have htps3 : s3.topics = s2.topics := by rw [hs3]
          rw [htps3]
          exact all_unchanged_add_ref _ _ 1 (all_unchanged_add_ref _ _ (-1) h2)
      · rw [logic_msg_spec_some cfg fmtfn strtod s2 mt2 p2 i hb2 hf2]
        by_cases hp2 : p2 = ""
        · rw [if_pos hp2]
          exact h2
        · rw [if_neg hp2]
          obtain ⟨hlt, -, -⟩ := List.findIdx?_eq_some_iff_getElem.mp hf2
          have hgot : s2.items.get? i = some s2.items[i] := by
            rw [List.get?_eq_getElem?]
            exact List.getElem?_eq_some_iff.mpr ⟨hlt, rfl⟩
          rw [logic_install_topics fmtfn strtod s2 i s2.items[i] p2 hgot]
          exact all_unchanged_add_ref _ _ 1 (all_unchanged_add_ref _ _ (-1) h2)
    · rw [logic_msg_data_eq cfg fmtfn strtod s2 mt2 p2 hb2]
      have h0 : all_unchanged (if p2 = "" then s2.topics
          else get_topic_create s2.topics s2.items mt2) := by
        split_ifs with hp2
        · exact h2
        · exact all_unchanged_create s2.topics s2.items mt2 h2
      rcases hg2 : get_topic0 (if p2 = "" then s2.topics
          else get_topic_create s2.topics s2.items mt2) mt2 with _ | t2
      · simp only [logic_data, hg2]
        exact h0
      · by_cases hr2 : t2.ref ≠ 0
        · rcases hp3 : propagate fmtfn strtod
              (set_changed (set_value (if p2 = "" then s2.topics
                else get_topic_create s2.topics s2.items mt2) mt2 p2) mt2 true) mt2
              s2.items with ⟨its3, pubs3⟩
          simp only [logic_data, hg2, if_pos hr2, hp3]
          apply all_unchanged_after_reset
          apply offname_unchanged
          rw [set_value]
          exact all_unchanged_upd _ _ _ (fun t => rfl) h0
        · simp only [logic_data, hg2, if_neg hr2]
          rw [set_value]
          exact all_unchanged_upd _ _ _ (fun t => rfl) h0

/-- Witness for C3: on a data update to A, the self-referencing item keyed
A is untouched, the dependent item y is re-run under the raised changed
flag, and A's entry ends with the new value and a cleared flag. -/
theorem c3_witness :
    (logic_msg cfg0 fmt0 strtod0 s_c3w "A" "5").1.items.get? 0 = some it_self ∧
    (logic_msg cfg0 fmt0 strtod0 s_c3w "A" "5").1.items.get? 1 =
      some (do_item fmt0 strtod0
        (set_changed (set_value s_c3w.topics "A" "5") "A" true) it_dep).1 ∧
    get_topic0 (logic_msg cfg0 fmt0 strtod0 s_c3w "A" "5").1.topics "A" =
      some { topic := "A", value := some "5", ref := 2, changed := false } := by
  have h := c3_self_skip_changed_flag cfg0 fmt0 strtod0 s_c3w "A" "5"
    { topic := "A", value := some "0", ref := 2, changed := false }
    (by decide) (by decide) (by decide)
  exact ⟨h.1 0 it_self rfl rfl, h.2.1 1 it_dep rfl (by decide) (by decide), h.2.2.2.1⟩

theorem timer_msg_data_eq (cfg : TimerCfg) (now : ℚ) (s : TimerState)
    (mtopic payload : String) (i : Nat) (it : TimerItem)
    (hspec : ¬(timer_suffix_ok mtopic cfg.suffix = true ∧
       (timer_get_item_idx s.items mtopic (some cfg.suffix) ≠ none ∨ payload ≠ "")))
    (hfind : timer_get_item_idx s.items mtopic none = some i)
    (hit : s.items.get? i = some it) :
    timer_msg cfg now s mtopic payload =
      if it.resetvalue = payload then
        { items := s.items.set i { it with ontime := none },
          timers := libt_remove_timeout () it.topic s.timers }
      else if it.ontime = none then
        { items := s.items.set i { it with ontime := some now },
          timers := libt_add_timeouta (it.delay.map (fun d => now + d)) () it.topic
            s.timers }
      else s := by
  rw [timer_msg, if_neg hspec, hfind]
  simp only [timer_data, hit]

theorem off_data_eq (now : ℚ) (s : OffState) (j : Nat) (payload : String) (oit : OffItem)
    (hoit : s.items.get? j = some oit) :
    off_data now s j payload =
      if payload = "" then s
      else if off_reset_cond oit payload then
        { items := s.items.set j { oit with ontime := none },
          timers := libt_remove_timeout () oit.topic s.timers }
      else if oit.ontime = none then
        { items := s.items.set j { oit with ontime := some now },
          timers := libt_add_timeouta (oit.delay.map (fun d => now + d)) () oit.topic
            s.timers }
      else s := by
  rw [off_data, hoit]

theorem off_msg_data_eq (sfx : String) (now : ℚ) (s : OffState)
    (mtopic payload : String) (j : Nat)
    (hbo : ¬(mtopic.data.length > sfx.data.length ∧
             mtopic.data.drop (mtopic.data.length - sfx.data.length) = sfx.data))
    (hof : off_get_item_idx s.items mtopic = some j) :
    off_msg sfx now s mtopic payload = off_data now s j payload := by
  rw [off_msg, if_neg hbo, hof]

/-- C10: in the timeout daemons the turn-off delay runs from the first
activating data message only.  In mqttimer, a data message on an already
active item (ontime set) whose payload differs from the reset value leaves
the whole state, the recorded ontime and the pending timeout included,
untouched; a payload equal to the reset value cancels the pending timeout
and clears ontime; and once cleared, the next activating message records
ontime anew and schedules at now plus delay.  In mqttoff the same frame
holds with its reset test (payload equal to the configured reset value, or
parsing to zero by strtoul while a reset value is configured): a non-empty
non-reset data message on an active item changes nothing, and a payload
equal to the configured reset value cancels the timeout and clears
ontime. -/
theorem c10_activation_frame (cfg : TimerCfg) (now : ℚ) (s : TimerState)
    (mtopic payload : String) (i : Nat) (it : TimerItem)
    (hspec : ¬(timer_suffix_ok mtopic cfg.suffix = true ∧
       (timer_get_item_idx s.items mtopic (some cfg.suffix) ≠ none ∨ payload ≠ "")))
    (hfind : timer_get_item_idx s.items mtopic none = some i)
    (hit : s.items.get? i = some it)
    (so : OffState) (osfx mtopic2 payload2 : String) (j : Nat) (oit : OffItem)
    (hbo : ¬(mtopic2.data.length > osfx.data.length ∧
             mtopic2.data.drop (mtopic2.data.length - osfx.data.length) = osfx.data))
    (hof : off_get_item_idx so.items mtopic2 = some j)
    (hoit : so.items.get? j = some oit) :
    ((it.ontime ≠ none → payload ≠ it.resetvalue →
        timer_msg cfg now s mtopic payload = s) ∧
     (payload = it.resetvalue →
        timer_msg cfg now s mtopic payload =
          { items := s.items.set i { it with ontime := none },
            timers := libt_remove_timeout () it.topic s.timers }) ∧
     (it.ontime = none → payload ≠ it.resetvalue →
        timer_msg cfg now s mtopic payload =
          { items := s.items.set i { it with ontime := some now },
            timers := libt_add_timeouta (it.delay.map (fun d => now + d)) () it.topic
              s.timers })) ∧
    ((oit.ontime ≠ none → payload2 ≠ "" → off_reset_cond oit payload2 = false →
        off_msg osfx now so mtopic2 payload2 = so) ∧
     (∀ rv : String, oit.resetvalue = some rv → payload2 = rv → payload2 ≠ "" →
        off_msg osfx now so mtopic2 payload2 =
          { items := so.items.set j { oit with ontime := none },
            timers := libt_remove_timeout () oit.topic so.timers })) := by
  have ht := timer_msg_data_eq cfg now s mtopic payload i it hspec hfind hit
  have ho := (off_msg_data_eq osfx now so mtopic2 payload2 j hbo hof).trans
    (off_data_eq now so j payload2 oit hoit)
  refine ⟨⟨?_, ?_, ?_⟩, ?_, ?_⟩
  · intro hon hne
    rw [ht, if_neg (fun hh => hne hh.symm), if_neg hon]
  · intro heq
    rw [ht, if_pos heq.symm]
  · intro hon hne
    rw [ht, if_neg (fun hh => hne hh.symm), if_pos hon]
  · intro hon hne hcond
    rw [ho, if_neg hne, if_neg (by rw [hcond]; exact Bool.false_ne_true), if_neg hon]
  · intro rv hrv hpe hne
    have hcond : off_reset_cond oit payload2 = true := by
      rw [off_reset_cond, hrv]
      simp [hpe]
    rw [ho, if_neg hne, if_pos hcond]

/-- Witness for C10: an active mqttimer item ignores a non-reset data
message, and an active mqttoff item ignores a non-reset non-zero data
message. -/
theorem c10_witness :
    timer_msg tcfg0 20 s_c10 "name" "1" = s_c10 ∧
    off_msg "/timeoff" 20 so_c10 "lamp" "5" = so_c10 := by
  have h := c10_activation_frame tcfg0 20 s_c10 "name" "1" 0 it_c10 (by decide) (by decide)
    rfl so_c10 "/timeoff" "lamp" "5" 0 oit_c10 (by decide) (by decide) rfl
  exact ⟨h.1.1 (by decide) (by decide), h.2.1 (by decide) (by decide) (by decide)⟩

end Mqttalrm
